import Mathlib

/-!
# Varanus client: samplers of `client/main.go`

A shallow embedding of the sampling loops of the Varanus telemetry client
(`collectCPUInfo`, `collectMemInfo`, `collectNetInfo`, `collectDiskInfo`) together
with the fragments of the Go standard library they call (`regexp`, `strconv.Atoi`,
`strings.Split`, `strings.Contains`).

Go strings are modelled as lists of characters, Go `int` as a 64 bit two's
complement integer (the width on amd64 and arm64) carried in `Int`.
-/

namespace Varanus

/-- Go `string`, as the sequence of its characters. -/
abbrev Str := List Char

/-! ## Machine integers -/

/-- Width of Go's `int` on the modelled platform. -/
def intSize : Nat := 64

/-- Largest value of Go's `int`. -/
def maxInt : Int := 2 ^ (intSize - 1) - 1

/-- Smallest value of Go's `int`. -/
def minInt : Int := -(2 ^ (intSize - 1))

/-- Two's complement wrap-around of an integer result into the range of `int`. -/
def wrapInt (x : Int) : Int := (x + 2 ^ (intSize - 1)) % 2 ^ intSize - 2 ^ (intSize - 1)

/-! ## `strconv.Atoi` -/

/-- Is the character one of `0` .. `9`. -/
def isDigit (c : Char) : Bool := decide ('0' ≤ c) && decide (c ≤ '9')

/-- Value of a decimal digit character. -/
def digitVal (c : Char) : Nat := c.toNat - '0'.toNat

/-- Value of a string of decimal digits, most significant digit first. -/
def decimalValue (s : Str) : Nat := s.foldl (fun n c => n * 10 + digitVal c) 0

/-- The two kinds of `*strconv.NumError` that `Atoi` reports. -/
inductive NumError
  | syntaxErr
  | rangeErr
  deriving DecidableEq, Repr

/-- Go `len(s)`: the length of the text in bytes of its UTF-8 encoding. -/
def byteLen (s : Str) : Nat := (s.map Char.utf8Size).sum

/-- Largest value of an unsigned integer of the width of `int` (`maxVal` in `ParseUint`). -/
def maxVal : Nat := 2 ^ intSize - 1

/-- The loop of Go `strconv.ParseUint(s, 10, 0)` over the bytes of the text, `n` being
the number read so far.  A character that is not a digit ends it with a syntax error
and the value `0`; a digit that takes the number past `maxVal` ends it at once with a
range error and the value `maxVal`, before any later character is looked at.  The
sum `n * 10 + d` is a natural number here, so its comparison with `maxVal` also stands
for the wrap-around test `n1 < n` of the source. -/
def parseUintLoop : Nat → Str → Nat × Option NumError
  | n, [] => (n, none)
  | n, c :: s =>
    if !isDigit c then (0, some NumError.syntaxErr)
    else if (2 ^ 64 - 1) / 10 + 1 ≤ n then (maxVal, some NumError.rangeErr)
    else if maxVal < n * 10 + digitVal c then (maxVal, some NumError.rangeErr)
    else parseUintLoop (n * 10 + digitVal c) s

/-- Go `strconv.ParseUint(s, 10, 0)`. -/
def ParseUint (s : Str) : Nat × Option NumError :=
  if s.isEmpty then (0, some NumError.syntaxErr) else parseUintLoop 0 s

/-- Go `strconv.ParseInt(s, 10, 0)`: the sign is picked off, the rest is read by
`ParseUint`; a syntax error gives `0`, a magnitude outside the range of `int` gives
the nearest bound and a range error. -/
def ParseInt (s0 : Str) : Int × Option NumError :=
  match s0 with
  | [] => (0, some NumError.syntaxErr)
  | c :: t =>
    let neg : Bool := decide (c = '-')
    let s : Str := if c = '+' ∨ c = '-' then t else c :: t
    match ParseUint s with
    | (_, some NumError.syntaxErr) => (0, some NumError.syntaxErr)
    | (un, _) =>
      if !neg && decide ((2 : Int) ^ (intSize - 1) ≤ (un : Int)) then
        (maxInt, some NumError.rangeErr)
      else if neg && decide ((2 : Int) ^ (intSize - 1) < (un : Int)) then
        (minInt, some NumError.rangeErr)
      else (if neg then -(un : Int) else (un : Int), none)

/-- The digit loop of the fast path of `Atoi`; `none` is its syntax error.  The
path is taken for fewer than 19 bytes only, so the number stays below `10 ^ 18`. -/
def atoiFastLoop : Int → Str → Option Int
  | n, [] => some n
  | n, ch :: s => if !isDigit ch then none else atoiFastLoop (n * 10 + (digitVal ch : Int)) s

/-- The fast path of Go `strconv.Atoi` for short texts. -/
def atoiFast (s0 : Str) : Int × Option NumError :=
  match s0 with
  | [] => (0, some NumError.syntaxErr)
  | c :: t =>
    let s : Str := if c = '-' ∨ c = '+' then t else c :: t
    if (c = '-' ∨ c = '+') ∧ s.length < 1 then (0, some NumError.syntaxErr)
    else
      match atoiFastLoop 0 s with
      | none => (0, some NumError.syntaxErr)
      | some n => (if c = '-' then -n else n, none)

/-- Go `strconv.Atoi`: the value and the error.  Texts of 1 to 18 bytes take the
fast path, all others go through `ParseInt`. -/
def Atoi (s : Str) : Int × Option NumError :=
  if (intSize = 32 ∧ 0 < byteLen s ∧ byteLen s < 10) ∨
     (intSize = 64 ∧ 0 < byteLen s ∧ byteLen s < 19) then atoiFast s
  else ParseInt s

/-! ## `strings.Split` and `strings.Contains` -/

/-- Worker of `Split`: `cur` is the piece being read. -/
def splitGo (sep : Char) : Str → Str → List Str
  | cur, [] => [cur]
  | cur, c :: s => if c = sep then cur :: splitGo sep [] s else splitGo sep (cur ++ [c]) s

/-- Go `strings.Split(s, sep)` for a separator of one character, which is what every
call in the client passes (`"."`, `" "`, `"\n"`). -/
def Split (s : Str) (sep : Char) : List Str := splitGo sep [] s

/-- Go `strings.Contains(s, substr)`. -/
def Contains : Str → Str → Bool
  | [], sub => sub.isEmpty
  | c :: s, sub => sub.isPrefixOf (c :: s) || Contains s sub

/-! ## The fragment of `regexp` used by the client -/

/-- Character classes occurring in the client's patterns. -/
inductive Cls
  | dot
  | digit
  | space
  deriving DecidableEq, Repr

/-- Membership in a character class: `.` is any character but a newline, `[0-9]`
a decimal digit, `\s` one of tab, newline, form feed, carriage return, blank. -/
def Cls.test : Cls → Char → Bool
  | Cls.dot, c => c != '\n'
  | Cls.digit, c => isDigit c
  | Cls.space, c => c == '\t' || c == '\n' || c == '\x0c' || c == '\r' || c == ' '

/-- One element of a pattern.  Every pattern of the client is a concatenation of
anchors, literal text and repeated character classes, each repetition standing in
a capturing `( )` or a non-capturing `(?: )` group of its own. -/
inductive Item
  | bos
  | eos
  | lit (s : Str)
  | rep (c : Cls) (min : Nat) (greedy : Bool) (cap : Bool)
  deriving DecidableEq, Repr

/-- Match result of a pattern tail: the captured groups and the unread input. -/
abbrev MatchResult := List Str × Str

/-- Repetition of a character class followed by the continuation `k`, in the
priority order of a backtracking matcher: a greedy repetition tries one more
character before it tries the continuation, a lazy one the other way round.
`need` characters are still compulsory, `acc` is the text the repetition has read. -/
def repGo (p : Char → Bool) (greedy : Bool) (k : Str → Str → Option MatchResult) :
    Nat → Str → Str → Option MatchResult
  | need, acc, [] => if need = 0 then k acc [] else none
  | need, acc, c :: s =>
    if need = 0 then
      if greedy then
        match (if p c then repGo p greedy k 0 (acc ++ [c]) s else none) with
        | some r => some r
        | none => k acc (c :: s)
      else
        match k acc (c :: s) with
        | some r => some r
        | none => if p c then repGo p greedy k 0 (acc ++ [c]) s else none
    else
      if p c then repGo p greedy k (need - 1) (acc ++ [c]) s else none

/-- Match a pattern at the current position: `pos` is the number of characters of
the text before the unread input `s`, `caps` the groups captured so far. -/
def matchItems : List Item → Nat → Str → List Str → Option MatchResult
  | [], _, s, caps => some (caps, s)
  | Item.bos :: items, pos, s, caps => if pos = 0 then matchItems items pos s caps else none
  | Item.eos :: items, pos, s, caps => if s.isEmpty then matchItems items pos s caps else none
  | Item.lit l :: items, pos, s, caps =>
    if l.isPrefixOf s then matchItems items (pos + l.length) (s.drop l.length) caps else none
  | Item.rep c min greedy cap :: items, pos, s, caps =>
    repGo c.test greedy
      (fun got rest => matchItems items (pos + got.length) rest (if cap then caps ++ [got] else caps))
      min [] s

/-- Leftmost match: the pattern is tried at each position of the text in turn. -/
def findFrom (items : List Item) : Nat → Str → Option (List Str)
  | pos, [] =>
    match matchItems items pos [] [] with
    | some (caps, _) => some ([] :: caps)
    | none => none
  | pos, c :: s =>
    match matchItems items pos (c :: s) [] with
    | some (caps, rest) => some ((c :: s).take ((c :: s).length - rest.length) :: caps)
    | none => findFrom items (pos + 1) s

/-- Go `(*Regexp).FindStringSubmatch`: `none` is the nil slice of no match, otherwise
the text of the leftmost match followed by the text of each capturing group. -/
def FindStringSubmatch (re : List Item) (s : Str) : Option (List Str) := findFrom re 0 s

/-- Go `(*Regexp).MatchString`. -/
def MatchString (re : List Item) (s : Str) : Bool := (FindStringSubmatch re s).isSome

/-- Number of capturing groups of a pattern. -/
def groupCount : List Item → Nat
  | [] => 0
  | Item.rep _ _ _ true :: items => groupCount items + 1
  | _ :: items => groupCount items

/-- The pattern `^([0-9]+)$`. -/
def regexpNumbers : List Item := [Item.bos, Item.rep Cls.digit 1 true true, Item.eos]

/-- The patterns `Key:(?:\s*)([0-9]*)` of the memory sampler. -/
def memPattern (key : Str) : List Item :=
  [Item.lit key, Item.rep Cls.space 0 true false, Item.rep Cls.digit 0 true true]

/-- The pattern `MemTotal:(?:\s*)([0-9]*)`. -/
def regexpMemTotal : List Item := memPattern "MemTotal:".toList

/-- The pattern `MemFree:(?:\s*)([0-9]*)`. -/
def regexpMemFree : List Item := memPattern "MemFree:".toList

/-- The pattern `Buffers:(?:\s*)([0-9]*)`. -/
def regexpBuffers : List Item := memPattern "Buffers:".toList

/-- The pattern `Cached:(?:\s*)([0-9]*)`. -/
def regexpCached : List Item := memPattern "Cached:".toList

/-- The pattern `SwapTotal:(?:\s*)([0-9]*)`. -/
def regexpSwapTotal : List Item := memPattern "SwapTotal:".toList

/-- The pattern `SwapFree:(?:\s*)([0-9]*)`. -/
def regexpSwapFree : List Item := memPattern "SwapFree:".toList

/-- The group pair `(?:\s+?)(?:[0-9]+?)`: a separator and a counter that is not kept. -/
def skipCounter : List Item := [Item.rep Cls.space 1 false false, Item.rep Cls.digit 1 false false]

/-- The pattern
`^(?:.+?): ([0-9]+?)` followed by seven times `(?:\s+?)(?:[0-9]+?)`, then
`(?:\s+?)([0-9]+?)(?:\s+?)(?:.+)$`. -/
def regexpNetDev : List Item :=
  [Item.bos, Item.rep Cls.dot 1 false false, Item.lit ": ".toList, Item.rep Cls.digit 1 false true]
    ++ skipCounter ++ skipCounter ++ skipCounter ++ skipCounter
    ++ skipCounter ++ skipCounter ++ skipCounter
    ++ [Item.rep Cls.space 1 false false, Item.rep Cls.digit 1 false true,
        Item.rep Cls.space 1 false false, Item.rep Cls.dot 1 true false, Item.eos]

/-- The pattern
`^(.+?)(?:\s+?)([0-9]+?)(?:\s+?)(?:[0-9]+?)(?:\s+?)([0-9]+?)(?:\s+?)(?:[0-9]+?)%(?:\s+?)(.+)$`. -/
def regexpDisk : List Item :=
  [Item.bos, Item.rep Cls.dot 1 false true,
   Item.rep Cls.space 1 false false, Item.rep Cls.digit 1 false true,
   Item.rep Cls.space 1 false false, Item.rep Cls.digit 1 false false,
   Item.rep Cls.space 1 false false, Item.rep Cls.digit 1 false true,
   Item.rep Cls.space 1 false false, Item.rep Cls.digit 1 false false,
   Item.lit "%".toList,
   Item.rep Cls.space 1 false false, Item.rep Cls.dot 1 true true, Item.eos]

/-! ## The shared statistics record -/

/-- Go `type disk struct`. -/
structure disk where
  Total : Int
  Free : Int
  Mount : Str
  Filesystem : Str
  deriving DecidableEq, Repr

/-- Go `type stats struct`, the record behind the global `Stats`. -/
structure stats where
  AuthKey : Str
  Hostname : Str
  Uptime : Int
  Processes : Int
  LoadAvg : List Str
  MemTotal : Int
  MemFree : Int
  SwapTotal : Int
  SwapFree : Int
  NetDown : Int
  NetUp : Int
  Disks : List disk
  deriving DecidableEq, Repr

/-- The value of `new(stats)`: every field zero. -/
def stats.zero : stats :=
  { AuthKey := [], Hostname := [], Uptime := 0, Processes := 0, LoadAvg := [],
    MemTotal := 0, MemFree := 0, SwapTotal := 0, SwapFree := 0,
    NetDown := 0, NetUp := 0, Disks := [] }

/-- How one pass through the body of a sampler's `for` loop ends: the loop goes on
to its next pass with the record as written, the function returns (its goroutine
is over), or an index is out of range (a run-time panic, which ends the process). -/
inductive Outcome
  | next (st : stats)
  | exit (st : stats)
  | panic
  deriving DecidableEq, Repr

/-! ## `collectCPUInfo` -/

/-- Number of entries of `/proc` that are directories with an all-digit name. -/
def countProcesses : List (Str × Bool) → Int
  | [] => 0
  | (name, isDir) :: items =>
    if !isDir then countProcesses items
    else if MatchString regexpNumbers name then wrapInt (countProcesses items + 1)
    else countProcesses items

/-- One pass of the loop of `collectCPUInfo`.  `items` are the entries of `/proc`
(name, is a directory), `uptimeRaw` and `loadAvgRaw` the contents of `/proc/uptime`
and `/proc/loadavg`, empty when the file could not be read. -/
def collectCPUInfo (items : List (Str × Bool)) (uptimeRaw loadAvgRaw : Str) (st : stats) : Outcome :=
  let processes := countProcesses items
  match (Split uptimeRaw '.')[0]? with
  | none => Outcome.panic
  | some first =>
    let uptime := (Atoi first).1
    let loadAvg := Split loadAvgRaw ' '
    let st1 := { st with Uptime := uptime }
    match loadAvg[0]?, loadAvg[1]?, loadAvg[2]?, loadAvg[3]? with
    | some a, some b, some c, some d =>
      Outcome.next { st1 with LoadAvg := [a, b, c, d], Processes := processes }
    | _, _, _, _ => Outcome.panic

/-! ## `collectMemInfo` -/

/-- One pass of the loop of `collectMemInfo` on the content `memInfo` of
`/proc/meminfo` (empty when the file could not be read).  The index `[1]` of a match
is always in range (`FindStringSubmatch_length`), so it is read with `getD`. -/
def collectMemInfo (memInfo : Str) (st : stats) : stats :=
  let memTotalRaw := FindStringSubmatch regexpMemTotal memInfo
  let memFreeRaw := FindStringSubmatch regexpMemFree memInfo
  let memBuffersRaw := FindStringSubmatch regexpBuffers memInfo
  let memCachedRaw := FindStringSubmatch regexpCached memInfo
  let swapTotalRaw := FindStringSubmatch regexpSwapTotal memInfo
  let swapFreeRaw := FindStringSubmatch regexpSwapFree memInfo
  let memTotal : Int := match memTotalRaw with
    | some m => (Atoi (m.getD 1 [])).1
    | none => -1
  let memFree : Int := match memFreeRaw with
    | some m => (Atoi (m.getD 1 [])).1
    | none => -1
  let swapTotal : Int := match swapTotalRaw with
    | some m => (Atoi (m.getD 1 [])).1
    | none => -1
  let swapFree : Int := match swapFreeRaw with
    | some m => (Atoi (m.getD 1 [])).1
    | none => -1
  let memBuffers : Int := match memBuffersRaw with
    | some m => (Atoi (m.getD 1 [])).1
    | none => 0
  let memCached : Int := match memCachedRaw with
    | some m => (Atoi (m.getD 1 [])).1
    | none => 0
  { st with
    MemTotal := memTotal
    MemFree := wrapInt (wrapInt (memFree + memBuffers) + memCached)
    SwapTotal := swapTotal
    SwapFree := swapFree }

/-! ## `collectNetInfo` -/

/-- The scan of one read of `/proc/net/dev` for the adapter's line. -/
inductive Scan
  | notFound
  | mismatch
  | found (dl ul : Int)
  deriving DecidableEq, Repr

/-- The `for _, line := range lines` loop shared by both reads: lines without the
text `Adapter + ": "` are passed over; the first line with it either fails the
pattern (the function returns) or yields its two captured counters (`break`); the
indices `[1]` and `[2]` of a match are always in range (`FindStringSubmatch_length`). -/
def scanLines (adapter : Str) : List Str → Scan
  | [] => Scan.notFound
  | line :: lines =>
    if !Contains line (adapter ++ ": ".toList) then scanLines adapter lines
    else
      match FindStringSubmatch regexpNetDev line with
      | none => Scan.mismatch
      | some bytes => Scan.found (Atoi (bytes.getD 1 [])).1 (Atoi (bytes.getD 2 [])).1

/-- One pass of the loop of `collectNetInfo`: `netRaw1` and `netRaw2` are the
contents of `/proc/net/dev` read before and after the one second sleep. -/
def collectNetInfo (adapter : Str) (netRaw1 netRaw2 : Str) (st : stats) : Outcome :=
  match scanLines adapter (Split netRaw1 '\n') with
  | Scan.mismatch => Outcome.exit st
  | first =>
    let dl : Int := match first with
      | Scan.found d _ => d
      | _ => 0
    let ul : Int := match first with
      | Scan.found _ u => u
      | _ => 0
    match scanLines adapter (Split netRaw2 '\n') with
    | Scan.mismatch => Outcome.exit st
    | Scan.notFound => Outcome.next st
    | Scan.found dlTemp ulTemp =>
      Outcome.next { st with NetDown := wrapInt (dlTemp - dl), NetUp := wrapInt (ulTemp - ul) }

/-! ## `collectDiskInfo` -/

/-- The body of `for i := 1; i < len(lines) - 1; i++` over the lines it visits:
each line is matched against the disk pattern and its groups are indexed without
a check, so a line the pattern rejects is an index out of range. -/
def diskRows : List Str → List disk → Option (List disk)
  | [], tempDisks => some tempDisks
  | l :: ls, tempDisks =>
    match FindStringSubmatch regexpDisk l with
    | none => none
    | some groups =>
      match groups[2]?, groups[3]?, groups[4]?, groups[1]? with
      | some total, some free, some mount, some fs =>
        diskRows ls (tempDisks ++
          [{ Total := (Atoi total).1, Free := (Atoi free).1, Mount := mount, Filesystem := fs }])
      | _, _, _, _ => none

/-- One pass of the loop of `collectDiskInfo`.  `output` is what `df` printed,
`none` when running it failed (the pass is given up by `continue`).  The loop
visits the lines of index `1` to `len(lines) - 2`. -/
def collectDiskInfo (output : Option Str) (st : stats) : Outcome :=
  match output with
  | none => Outcome.next st
  | some out =>
    let lines := Split out '\n'
    match diskRows (lines.drop 1).dropLast [] with
    | none => Outcome.panic
    | some tempDisks => Outcome.next { st with Disks := tempDisks }

/-! ## Vocabulary of the statements -/

/-- No match of `items` begins with the character `x`. -/
def Rejects (items : List Item) (x : Char) : Prop :=
  ∀ (s : Str) (pos : Nat) (caps : List Str), matchItems items pos (x :: s) caps = none

/-- A nonempty run of decimal digits. -/
def IsNumber (ds : Str) : Prop := ds ≠ [] ∧ ∀ x ∈ ds, isDigit x = true

/-- A nonempty run of white space. -/
def IsBlank (ws : Str) : Prop := ws ≠ [] ∧ ∀ x ∈ ws, Cls.space.test x = true

/-- Lines of text, each ended by a newline. -/
def unlines (ls : List Str) : Str := (ls.map fun l => l ++ ['\n']).flatten

/-- A line of the interface statistics in the layout the network sampler expects:
the interface name, possibly after some padding, the text `: `, and white space
separated counters, of which the first and the ninth are kept. -/
structure NetLine where
  pad : Str
  name : Str
  rx : Str
  skipped : List (Str × Str)
  sepTx : Str
  tx : Str
  sepTail : Char
  tail : Str

/-- The text of a line of the interface statistics. -/
def NetLine.text (l : NetLine) : Str :=
  (l.pad ++ l.name) ++ (": ".toList ++ (l.rx ++ ((l.skipped.map fun p => p.1 ++ p.2).flatten ++
    (l.sepTx ++ (l.tx ++ l.sepTail :: l.tail)))))

/-- Well-formedness of a line of the interface statistics: no colon before the one that
ends the name, the counters 2 to 8 (`skipped`, each with the white space before it)
are seven, every counter is a decimal number, every separator is white space, and
something follows the white space after the ninth counter. -/
def NetLine.WellFormed (l : NetLine) : Prop :=
  '\n' ∉ l.text ∧ l.pad ++ l.name ≠ [] ∧ ':' ∉ l.pad ++ l.name ∧
  IsNumber l.rx ∧ l.skipped.length = 7 ∧ (∀ p ∈ l.skipped, IsBlank p.1 ∧ IsNumber p.2) ∧
  IsBlank l.sepTx ∧ IsNumber l.tx ∧ Cls.space.test l.sepTail = true ∧ l.tail ≠ []

/-- A row of the output of `df`: six columns, the last of which runs to the end of
the line, each separator standing before the column it is named after. -/
structure DfRow where
  filesystem : Str
  sepTotal : Str
  total : Str
  sepUsed : Str
  used : Str
  sepAvailable : Str
  available : Str
  sepUse : Str
  usePercent : Str
  sepMount : Char
  mount : Str

/-- The text of a row of the output of `df`. -/
def DfRow.text (r : DfRow) : Str :=
  r.filesystem ++ (r.sepTotal ++ (r.total ++ (r.sepUsed ++ (r.used ++ (r.sepAvailable ++
    (r.available ++ (r.sepUse ++ (r.usePercent ++ ("%".toList ++ r.sepMount :: r.mount)))))))))

/-- Well-formedness of a row: the filesystem is a nonempty word without white space,
the three sizes and the percentage are decimal numbers, the columns are separated
by white space, a single white space character stands before the nonempty mount
path, and the row holds no newline. -/
def DfRow.WellFormed (r : DfRow) : Prop :=
  '\n' ∉ r.text ∧ r.filesystem ≠ [] ∧ (∀ x ∈ r.filesystem, Cls.space.test x = false) ∧
  IsBlank r.sepTotal ∧ IsNumber r.total ∧ IsBlank r.sepUsed ∧ IsNumber r.used ∧
  IsBlank r.sepAvailable ∧ IsNumber r.available ∧ IsBlank r.sepUse ∧ IsNumber r.usePercent ∧
  Cls.space.test r.sepMount = true ∧ r.mount ≠ []

/-- The entry of `disks` that a row stands for. -/
def DfRow.toDisk (r : DfRow) : disk :=
  { Total := decimalValue r.total, Free := decimalValue r.available,
    Mount := r.mount, Filesystem := r.filesystem }

/-- The output of `df`: a header line and the rows, each ended by a newline. -/
def dfOutput (header : Str) (rows : List DfRow) : Str :=
  header ++ '\n' :: unlines (rows.map DfRow.text)


/-- The text `pre` stops where a line begins: it is empty or ends with a newline. -/
def AtLineStart (pre : Str) : Prop := pre = [] ∨ pre.getLast? = some '\n'

/-- In `text` a line begins with `key`, followed by white space (possibly none) and then
by the decimal number `ds`, which ends there; and `key` does not occur in the text
before that line. -/
def KeyLineValue (key text ds : Str) : Prop :=
  ∃ pre ws rest, text = pre ++ (key ++ (ws ++ (ds ++ rest))) ∧ AtLineStart pre ∧
    Contains (pre ++ key.dropLast) key = false ∧ (∀ x ∈ ws, Cls.space.test x = true) ∧
    IsNumber ds ∧ ∀ y ∈ rest.head?, isDigit y = false

/-- In `text` a line begins with `key`, followed by white space (possibly none) and then
by the end of the text or a character that is neither a digit nor white space; and
`key` does not occur in the text before that line. -/
def KeyLineNoValue (key text : Str) : Prop :=
  ∃ pre ws rest, text = pre ++ (key ++ (ws ++ rest)) ∧ AtLineStart pre ∧
    Contains (pre ++ key.dropLast) key = false ∧ (∀ x ∈ ws, Cls.space.test x = true) ∧
    ∀ y ∈ rest.head?, isDigit y = false ∧ Cls.space.test y = false

/-- The text does not begin with a decimal number, signed or not: after an optional
sign comes the end of the text or a character that is not a digit. -/
def NoLeadingInteger (s : Str) : Prop :=
  match s with
  | [] => True
  | c :: t => if c = '+' ∨ c = '-' then ∀ d ∈ t.head?, isDigit d = false else isDigit c = false

/-- Fields joined by a separator character. -/
def joinWith (sep : Char) : List Str → Str
  | [] => []
  | [f] => f
  | f :: g :: fs => f ++ sep :: joinWith sep (g :: fs)

/-! ## Sample inputs -/

/-- A memory statistics text in the layout of `/proc/meminfo`. -/
def sampleMemInfo : Str :=
  ("MemTotal:        8000 kB\nMemFree:          100 kB\nBuffers:           20 kB\n" ++
   "Cached:            30 kB\nSwapCached:         0 kB\nSwapTotal:          0 kB\n").toList

/-- A line of the interface `eth0` with the given first and ninth counters. -/
def sampleLine (rx tx : Str) : NetLine :=
  { pad := "  ".toList, name := "eth0".toList, rx := rx,
    skipped := List.replicate 7 (" ".toList, "0".toList),
    sepTx := " ".toList, tx := tx, sepTail := ' ', tail := "0 0 0 0 0 0 0".toList }

/-- The line of the loopback interface. -/
def loLine : Str := "    lo: 2776770 11307 0 0 0 0 0 0 2776770 11307 0 0 0 0 0 0".toList

/-- A read of `/proc/net/dev` as the kernel prints it (`%6s: %7llu %7llu ...`) when
`eth0` has received 1000 bytes: the counter is padded on the left. -/
def paddedRead : Str :=
  ("Inter-|   Receive                                                |  Transmit\n" ++
   " face |bytes    packets errs drop fifo frame compressed multicast|bytes    packets errs drop fifo colls carrier compressed\n" ++
   "  eth0:    1000      10    0    0    0     0          0         0     2000      20    0    0    0     0       0          0\n").toList

/-- Two rows in the format of `df`. -/
def sampleRows : List DfRow :=
  [ { filesystem := "/dev/sda1".toList, sepTotal := "   ".toList, total := "1000".toList,
      sepUsed := " ".toList, used := "400".toList, sepAvailable := "  ".toList,
      available := "600".toList, sepUse := "  ".toList, usePercent := "40".toList,
      sepMount := ' ', mount := "/".toList },
    { filesystem := "tmpfs".toList, sepTotal := " ".toList, total := "50".toList,
      sepUsed := " ".toList, used := "0".toList, sepAvailable := " ".toList,
      available := "50".toList, sepUse := " ".toList, usePercent := "0".toList,
      sepMount := ' ', mount := "/dev/shm".toList } ]

/-- An output of `df` in which a long device name stands on a line of its own. -/
def wrappedDfOutput : Str :=
  ("Filesystem 1kB-blocks Used Available Use% Mounted on\n" ++
   "/dev/mapper/VolGroup00-LogVol00\n" ++
   "                      1000 400 600 40% /\n").toList

/-! ## Lemmas on the matcher -/

theorem repGo_result (p : Char → Bool) (greedy : Bool) (k : Str → Str → Option MatchResult)
    (P : MatchResult → Prop) (hk : ∀ got rest r, k got rest = some r → P r) :
    ∀ (s : Str) (need : Nat) (acc : Str) (r : MatchResult),
      repGo p greedy k need acc s = some r → P r := by
  intro s
  induction s with
  | nil =>
    intro need acc r h
    by_cases h0 : need = 0
    · simp only [repGo, h0, if_true] at h
      exact hk _ _ _ h
    · simp [repGo, h0] at h
  | cons c s ih =>
    intro need acc r h
    by_cases h0 : need = 0
    · subst h0
      by_cases hp : p c = true
      · cases greedy with
        | true =>
          simp only [repGo, if_true, hp] at h
          cases hrec : repGo p true k 0 (acc ++ [c]) s with
          | some r2 => rw [hrec] at h; injection h with h; subst h; exact ih _ _ _ hrec
          | none => rw [hrec] at h; exact hk _ _ _ h
        | false =>
          simp only [repGo, if_true, hp, Bool.false_eq_true, if_false] at h
          cases hc : k acc (c :: s) with
          | some r2 => rw [hc] at h; injection h with h; subst h; exact hk _ _ _ hc
          | none => rw [hc] at h; exact ih _ _ _ h
      · cases greedy with
        | true =>
          simp only [repGo, if_true, hp, if_false] at h
          exact hk _ _ _ h
        | false =>
          simp only [repGo, if_true, hp, Bool.false_eq_true, if_false] at h
          cases hc : k acc (c :: s) with
          | some r2 => rw [hc] at h; injection h with h; subst h; exact hk _ _ _ hc
          | none => rw [hc] at h; exact absurd h (by simp)
    · by_cases hp : p c = true
      · simp only [repGo, h0, if_false, hp, if_true] at h
        exact ih _ _ _ h
      · simp [repGo, h0, hp] at h

theorem matchItems_groups :
    ∀ (items : List Item) (pos : Nat) (s : Str) (caps : List Str) (r : MatchResult),
      matchItems items pos s caps = some r → r.1.length = caps.length + groupCount items := by
  intro items
  induction items with
  | nil =>
    intro pos s caps r h
    simp only [matchItems] at h
    injection h with h
    subst h
    simp [groupCount]
  | cons it items ih =>
    intro pos s caps r h
    cases it with
    | bos =>
      by_cases hp : pos = 0
      · simp only [matchItems, hp, if_true] at h
        simpa [groupCount] using ih _ _ _ _ h
      · simp [matchItems, hp] at h
    | eos =>
      by_cases hp : s.isEmpty = true
      · simp only [matchItems, hp, if_true] at h
        simpa [groupCount] using ih _ _ _ _ h
      · simp [matchItems, hp] at h
    | lit l =>
      by_cases hp : l.isPrefixOf s = true
      · simp only [matchItems, hp, if_true] at h
        simpa [groupCount] using ih _ _ _ _ h
      · simp [matchItems, hp] at h
    | rep c min greedy cap =>
      simp only [matchItems] at h
      refine repGo_result _ _ _ (fun r => r.1.length = caps.length + groupCount (Item.rep c min greedy cap :: items)) ?_ _ _ _ _ h
      intro got rest r2 hk
      have := ih _ _ _ _ hk
      cases cap with
      | true => simp [groupCount] at this ⊢; omega
      | false => simpa [groupCount] using this

/-- A match always has the text of the match and one entry for every group: indexing
the groups of a pattern never goes out of range. -/
theorem FindStringSubmatch_length (re : List Item) (s : Str) (m : List Str)
    (h : FindStringSubmatch re s = some m) : m.length = groupCount re + 1 := by
  unfold FindStringSubmatch at h
  have key : ∀ (s : Str) (pos : Nat), findFrom re pos s = some m → m.length = groupCount re + 1 := by
    intro s
    induction s with
    | nil =>
      intro pos h
      simp only [findFrom] at h
      cases hm : matchItems re pos [] [] with
      | none => rw [hm] at h; exact absurd h (by simp)
      | some r =>
        rw [hm] at h
        obtain ⟨caps, rest⟩ := r
        injection h with h
        subst h
        have := matchItems_groups _ _ _ _ _ hm
        simpa using this
    | cons c s ih =>
      intro pos h
      simp only [findFrom] at h
      cases hm : matchItems re pos (c :: s) [] with
      | none => rw [hm] at h; exact ih _ h
      | some r =>
        rw [hm] at h
        obtain ⟨caps, rest⟩ := r
        injection h with h
        subst h
        have := matchItems_groups _ _ _ _ _ hm
        simpa using this
  exact key s 0 h

theorem repGo_lazy (p : Char → Bool) (k : Str → Str → Option MatchResult) (rest : Str)
    (r : MatchResult) :
    ∀ (xs : Str) (need : Nat) (acc : Str),
      (∀ x ∈ xs, p x = true) → need ≤ xs.length →
      (∀ i, need ≤ i → i < xs.length → k (acc ++ xs.take i) (xs.drop i ++ rest) = none) →
      k (acc ++ xs) rest = some r →
      repGo p false k need acc (xs ++ rest) = some r := by
  intro xs
  induction xs with
  | nil =>
    intro need acc _ hneed _ hk
    have h0 : need = 0 := by simpa using hneed
    subst h0
    cases rest with
    | nil => simpa [repGo] using hk
    | cons c s => simp only [List.append_nil] at hk; simp [repGo, hk]
  | cons x xs ih =>
    intro need acc hp hneed hfail hk
    have hx : p x = true := hp x (by simp)
    have hxs : ∀ y ∈ xs, p y = true := fun y hy => hp y (by simp [hy])
    have hk2 : k ((acc ++ [x]) ++ xs) rest = some r := by simpa using hk
    by_cases h0 : need = 0
    · subst h0
      have hnone : k acc (x :: (xs ++ rest)) = none := by
        simpa using hfail 0 (le_refl 0) (by simp)
      have hrec := ih 0 (acc ++ [x]) hxs (Nat.zero_le _)
        (fun i _ hi => by simpa using hfail (i + 1) (Nat.zero_le _) (by simpa using hi)) hk2
      simp [repGo, hnone, hx, hrec]
    · have hrec := ih (need - 1) (acc ++ [x]) hxs (by simp at hneed; omega)
        (fun i hi1 hi2 => by
          simpa using hfail (i + 1) (by omega) (by simpa using hi2)) hk2
      simp [repGo, h0, hx, hrec]

theorem repGo_greedy (p : Char → Bool) (k : Str → Str → Option MatchResult) (rest : Str)
    (r : MatchResult) (hrest : ∀ c ∈ rest.head?, p c = false) :
    ∀ (xs : Str) (need : Nat) (acc : Str),
      (∀ x ∈ xs, p x = true) → need ≤ xs.length →
      k (acc ++ xs) rest = some r →
      repGo p true k need acc (xs ++ rest) = some r := by
  intro xs
  induction xs with
  | nil =>
    intro need acc _ hneed hk
    have h0 : need = 0 := by simpa using hneed
    subst h0
    cases rest with
    | nil => simpa [repGo] using hk
    | cons c s =>
      have hc : p c = false := hrest c (by simp)
      simp only [List.append_nil] at hk
      simp [repGo, hc, hk]
  | cons x xs ih =>
    intro need acc hp hneed hk
    have hx : p x = true := hp x (by simp)
    have hxs : ∀ y ∈ xs, p y = true := fun y hy => hp y (by simp [hy])
    have hk2 : k ((acc ++ [x]) ++ xs) rest = some r := by simpa using hk
    by_cases h0 : need = 0
    · subst h0
      have hrec := ih 0 (acc ++ [x]) hxs (Nat.zero_le _) hk2
      simp [repGo, hx, hrec]
    · have hrec := ih (need - 1) (acc ++ [x]) hxs (by simp at hneed; omega) hk2
      simp [repGo, h0, hx, hrec]

theorem matchItems_lit (l : Str) (items : List Item) (pos : Nat) (s : Str) (caps : List Str) :
    matchItems (Item.lit l :: items) pos (l ++ s) caps = matchItems items (pos + l.length) s caps := by
  simp [matchItems, List.isPrefixOf_iff_prefix]

theorem matchItems_lit_none (l : Str) (items : List Item) (pos : Nat) (s : Str) (caps : List Str)
    (h : l.isPrefixOf s = false) : matchItems (Item.lit l :: items) pos s caps = none := by
  simp [matchItems, h]

theorem matchItems_rep_none (c : Cls) (min : Nat) (greedy cap : Bool) (items : List Item)
    (pos : Nat) (x : Char) (s : Str) (caps : List Str) (hmin : 0 < min) (hx : c.test x = false) :
    matchItems (Item.rep c min greedy cap :: items) pos (x :: s) caps = none := by
  have h0 : min ≠ 0 := by omega
  simp [matchItems, repGo, h0, hx]

theorem rejects_rep (c : Cls) (min : Nat) (greedy cap : Bool) (items : List Item) (x : Char)
    (hmin : 0 < min) (hx : c.test x = false) : Rejects (Item.rep c min greedy cap :: items) x :=
  fun s pos caps => matchItems_rep_none c min greedy cap items pos x s caps hmin hx

theorem rejects_lit (c : Char) (l : Str) (items : List Item) (x : Char) (hx : x ≠ c) :
    Rejects (Item.lit (c :: l) :: items) x := by
  intro s pos caps
  apply matchItems_lit_none
  simp [List.isPrefixOf, Ne.symm hx]

theorem matchItems_lazy (c : Cls) (min : Nat) (cap : Bool) (items : List Item) (pos : Nat)
    (xs rest : Str) (caps : List Str) (r : MatchResult)
    (hxs : ∀ x ∈ xs, c.test x = true) (hmin : min ≤ xs.length)
    (hrej : ∀ x ∈ xs.drop min, Rejects items x)
    (hk : matchItems items (pos + xs.length) rest (if cap then caps ++ [xs] else caps) = some r) :
    matchItems (Item.rep c min false cap :: items) pos (xs ++ rest) caps = some r := by
  simp only [matchItems]
  apply repGo_lazy
  · exact hxs
  · exact hmin
  · intro i hmi hi
    have hne : xs.drop i ≠ [] := by
      intro h
      have := congrArg List.length h
      simp at this
      omega
    obtain ⟨y, ys, hy⟩ := List.exists_cons_of_ne_nil hne
    have hmem : y ∈ xs.drop min := by
      have e : xs.drop i = (xs.drop min).drop (i - min) := by
        rw [List.drop_drop]; congr 1; omega
      have : y ∈ (xs.drop min).drop (i - min) := by rw [← e, hy]; simp
      exact List.mem_of_mem_drop this
    simp only [List.nil_append]
    rw [hy]
    exact hrej y hmem _ _ _
  · simpa using hk

theorem matchItems_greedy (c : Cls) (min : Nat) (cap : Bool) (items : List Item) (pos : Nat)
    (xs rest : Str) (caps : List Str) (r : MatchResult)
    (hxs : ∀ x ∈ xs, c.test x = true) (hmin : min ≤ xs.length)
    (hrest : ∀ y ∈ rest.head?, c.test y = false)
    (hk : matchItems items (pos + xs.length) rest (if cap then caps ++ [xs] else caps) = some r) :
    matchItems (Item.rep c min true cap :: items) pos (xs ++ rest) caps = some r := by
  simp only [matchItems]
  apply repGo_greedy _ _ _ _ hrest
  · exact hxs
  · exact hmin
  · simpa using hk

theorem findFrom_hit (items : List Item) (pos : Nat) (s : Str) (caps : List Str) (rest : Str)
    (h : matchItems items pos s [] = some (caps, rest)) :
    findFrom items pos s = some (s.take (s.length - rest.length) :: caps) := by
  cases s with
  | nil => simp [findFrom, h]
  | cons c s => simp [findFrom, h]

theorem findFrom_skip (items : List Item) (s : Str) :
    ∀ (pre : Str) (pos : Nat),
      (∀ i, i < pre.length → matchItems items (pos + i) (pre.drop i ++ s) [] = none) →
      findFrom items pos (pre ++ s) = findFrom items (pos + pre.length) s := by
  intro pre
  induction pre with
  | nil => intro pos _; simp
  | cons c pre ih =>
    intro pos h
    have h0 : matchItems items pos (c :: (pre ++ s)) [] = none := by
      simpa using h 0 (by simp)
    have hrec := ih (pos + 1) (fun i hi => by
      have := h (i + 1) (by simpa using hi)
      simpa [Nat.add_assoc, Nat.add_comm 1 i] using this)
    have e : pos + (c :: pre).length = pos + 1 + pre.length := by simp; omega
    rw [e, ← hrec]
    show findFrom items pos (c :: (pre ++ s)) = _
    rw [findFrom, h0]

theorem findFrom_none (items : List Item) :
    ∀ (s : Str) (pos : Nat),
      (∀ i, i ≤ s.length → matchItems items (pos + i) (s.drop i) [] = none) →
      findFrom items pos s = none := by
  intro s
  induction s with
  | nil =>
    intro pos h
    have h0 := h 0 (le_refl _)
    simp only [Nat.add_zero, List.drop_nil] at h0
    simp [findFrom, h0]
  | cons c s ih =>
    intro pos h
    have h0 := h 0 (Nat.zero_le _)
    simp only [Nat.add_zero, List.drop_zero] at h0
    rw [findFrom, h0]
    apply ih
    intro i hi
    have := h (i + 1) (by simpa using hi)
    simpa [Nat.add_assoc, Nat.add_comm 1 i] using this

theorem contains_false_drop (sub : Str) :
    ∀ (s : Str), Contains s sub = false → ∀ i, i ≤ s.length → sub.isPrefixOf (s.drop i) = false := by
  intro s
  induction s with
  | nil =>
    intro h i hi
    have : i = 0 := by simpa using hi
    subst this
    cases sub with
    | nil => simp [Contains] at h
    | cons a t => simp [List.isPrefixOf]
  | cons c s ih =>
    intro h i hi
    simp only [Contains, Bool.or_eq_false_iff] at h
    cases i with
    | zero => simpa using h.1
    | succ j => simpa using ih h.2 j (by simpa using hi)

theorem contains_true_of_append (sub : Str) (post : Str) :
    ∀ (pre : Str), Contains (pre ++ sub ++ post) sub = true := by
  intro pre
  induction pre with
  | nil =>
    cases sub with
    | nil => cases post <;> simp [Contains]
    | cons a t =>
      simp only [List.nil_append, List.cons_append, Contains, Bool.or_eq_true]
      left
      rw [List.isPrefixOf_iff_prefix]
      exact ⟨post, by simp⟩
  | cons c pre ih =>
    simp only [List.cons_append, Contains, Bool.or_eq_true]
    right
    simpa using ih

/-- An occurrence of `key` that begins inside `pre` already shows in `pre` followed by all of
`key` but its last character. -/
theorem first_occurrence (key pre tail : Str) (hkey : key ≠ [])
    (h : Contains (pre ++ key.dropLast) key = false) (i : Nat) (hi : i < pre.length) :
    key.isPrefixOf (pre.drop i ++ (key ++ tail)) = false := by
  have h1 := contains_false_drop key _ h i (by simp; omega)
  cases hp : key.isPrefixOf (pre.drop i ++ (key ++ tail)) with
  | false => rfl
  | true =>
    exfalso
    rw [List.isPrefixOf_iff_prefix] at hp
    have hsplit : pre.drop i ++ (key ++ tail)
        = (pre ++ key.dropLast).drop i ++ ([key.getLast hkey] ++ tail) := by
      rw [List.drop_append_of_le_length (le_of_lt hi)]
      conv_lhs => rw [← List.dropLast_append_getLast hkey]
      simp
    rw [hsplit] at hp
    have hlen : key.length ≤ ((pre ++ key.dropLast).drop i).length := by
      have : 0 < key.length := List.length_pos.mpr hkey
      simp
      omega
    have hpre : key <+: (pre ++ key.dropLast).drop i :=
      List.prefix_of_prefix_length_le hp (List.prefix_append _ _) hlen
    rw [← List.isPrefixOf_iff_prefix] at hpre
    rw [hpre] at h1
    exact Bool.noConfusion h1

theorem cls_digit_not_space (x : Char) (h : Cls.digit.test x = true) : Cls.space.test x = false := by
  simp only [Cls.test, isDigit, Bool.and_eq_true, decide_eq_true_eq] at h
  simp only [Cls.test, Bool.or_eq_false_iff, beq_eq_false_iff_ne, ne_eq]
  refine ⟨⟨⟨⟨?_, ?_⟩, ?_⟩, ?_⟩, ?_⟩ <;> intro e <;> subst e <;> exact absurd h.1 (by decide)

theorem cls_space_not_digit (x : Char) (h : Cls.space.test x = true) : Cls.digit.test x = false := by
  cases hd : Cls.digit.test x with
  | false => rfl
  | true => rw [cls_digit_not_space x hd] at h; exact Bool.noConfusion h

/-- The memory patterns on a text whose first `key` is followed by blanks and digits. -/
theorem find_memPattern (key pre ws ds rest : Str) (hkey : key ≠ [])
    (hfirst : Contains (pre ++ key.dropLast) key = false)
    (hws : ∀ x ∈ ws, Cls.space.test x = true) (hds : ∀ x ∈ ds, Cls.digit.test x = true)
    (hrest : ∀ y ∈ rest.head?, Cls.digit.test y = false)
    (hrest2 : ds = [] → ∀ y ∈ rest.head?, Cls.space.test y = false) :
    FindStringSubmatch (memPattern key) (pre ++ (key ++ (ws ++ (ds ++ rest))))
      = some [key ++ (ws ++ ds), ds] := by
  unfold FindStringSubmatch
  rw [findFrom_skip]
  · have hm : matchItems (memPattern key) (0 + pre.length) (key ++ (ws ++ (ds ++ rest))) []
        = some ([ds], rest) := by
      unfold memPattern
      rw [matchItems_lit]
      apply matchItems_greedy _ _ _ _ _ _ _ _ _ hws (Nat.zero_le _)
      · intro y hy
        cases ds with
        | nil => exact hrest2 rfl y (by simpa using hy)
        | cons d ds =>
          have : y = d := by simpa using hy.symm
          subst this
          exact cls_digit_not_space y (hds y (by simp))
      · apply matchItems_greedy _ _ _ _ _ _ _ _ _ hds (Nat.zero_le _) hrest
        simp [matchItems]
    rw [findFrom_hit _ _ _ _ _ hm]
    simp
    have : key.length + (ws.length + (ds.length + rest.length)) - rest.length
        = (key ++ (ws ++ ds)).length := by simp; omega
    rw [this]
    have e : key ++ (ws ++ (ds ++ rest)) = (key ++ (ws ++ ds)) ++ rest := by simp
    rw [e, List.take_left]
  · intro i hi
    unfold memPattern
    apply matchItems_lit_none
    exact first_occurrence key pre _ hkey hfirst i hi

/-- The memory patterns on a text without `key`. -/
theorem find_memPattern_none (key text : Str) (h : Contains text key = false) :
    FindStringSubmatch (memPattern key) text = none := by
  unfold FindStringSubmatch
  apply findFrom_none
  intro i hi
  unfold memPattern
  apply matchItems_lit_none
  exact contains_false_drop key text h i hi

theorem digitVal_le (c : Char) (h : isDigit c = true) : digitVal c ≤ 9 := by
  simp only [isDigit, Bool.and_eq_true, decide_eq_true_eq] at h
  have h2 : c.toNat ≤ '9'.toNat := h.2
  have e : '9'.toNat = 57 := rfl
  have e0 : '0'.toNat = 48 := rfl
  unfold digitVal
  omega

theorem digit_not_sign (c : Char) (h : isDigit c = true) : c ≠ '-' ∧ c ≠ '+' := by
  simp only [isDigit, Bool.and_eq_true, decide_eq_true_eq] at h
  constructor <;> intro e <;> subst e <;> exact absurd h.1 (by decide)

theorem foldl_digits_ge :
    ∀ (s : Str) (n : Nat), n ≤ s.foldl (fun n c => n * 10 + digitVal c) n := by
  intro s
  induction s with
  | nil => intro n; simp
  | cons c s ih =>
    intro n
    simp only [List.foldl_cons]
    exact le_trans (by omega) (ih _)

theorem parseUintLoop_digits :
    ∀ (s : Str) (n : Nat), (∀ c ∈ s, isDigit c = true) → n ≤ maxVal →
      parseUintLoop n s =
        if s.foldl (fun n c => n * 10 + digitVal c) n ≤ maxVal
        then (s.foldl (fun n c => n * 10 + digitVal c) n, none)
        else (maxVal, some NumError.rangeErr) := by
  intro s
  induction s with
  | nil => intro n _ hn; simp [parseUintLoop, hn]
  | cons c s ih =>
    intro n hd hn
    have hc : isDigit c = true := hd c (by simp)
    have hs : ∀ x ∈ s, isDigit x = true := fun x hx => hd x (by simp [hx])
    have hge := foldl_digits_ge s (n * 10 + digitVal c)
    have hmax : maxVal = 18446744073709551615 := by decide
    simp only [parseUintLoop, hc, Bool.not_true, Bool.false_eq_true, if_false, List.foldl_cons]
    by_cases h1 : (2 ^ 64 - 1) / 10 + 1 ≤ n
    · have h1b : 1844674407370955162 ≤ n := by
        have e : (2 ^ 64 - 1) / 10 + 1 = 1844674407370955162 := by norm_num
        omega
      have : ¬ (s.foldl (fun n c => n * 10 + digitVal c) (n * 10 + digitVal c) ≤ maxVal) := by
        rw [hmax]; omega
      rw [if_pos h1, if_neg this]
    · by_cases h2 : maxVal < n * 10 + digitVal c
      · have : ¬ (s.foldl (fun n c => n * 10 + digitVal c) (n * 10 + digitVal c) ≤ maxVal) := by
          omega
        rw [if_neg h1, if_pos h2, if_neg this]
      · rw [if_neg h1, if_neg h2]
        exact ih _ hs (by omega)

theorem ParseInt_digits (ds : Str) (hne : ds ≠ []) (hd : ∀ c ∈ ds, isDigit c = true) :
    ParseInt ds = if (decimalValue ds : Int) ≤ maxInt then ((decimalValue ds : Int), none)
      else (maxInt, some NumError.rangeErr) := by
  cases ds with
  | nil => exact absurd rfl hne
  | cons c t =>
    have hc := digit_not_sign c (hd c (by simp))
    have hmax : maxVal = 18446744073709551615 := by decide
    have hmi : maxInt = 9223372036854775807 := by decide
    have hpow : (2 : Int) ^ (intSize - 1) = 9223372036854775808 := by decide
    have hloop := parseUintLoop_digits (c :: t) 0 hd (Nat.zero_le _)
    have hpu : ParseUint (c :: t) = parseUintLoop 0 (c :: t) := by simp [ParseUint]
    unfold decimalValue
    simp only [ParseInt, hc.1, hc.2, or_self, if_false, decide_False, hpu, hloop]
    generalize List.foldl (fun n c => n * 10 + digitVal c) 0 (c :: t) = v
    by_cases hv : v ≤ maxVal
    · simp only [hv, if_true]
      by_cases hv2 : (v : Int) ≤ maxInt
      · have : ¬ ((2 : Int) ^ (intSize - 1) ≤ (v : Int)) := by rw [hpow]; rw [hmi] at hv2; omega
        simp [hv2, this]
      · have : ((2 : Int) ^ (intSize - 1) ≤ (v : Int)) := by rw [hpow]; rw [hmi] at hv2; omega
        simp [hv2, this]
    · have hv2 : ¬ ((v : Int) ≤ maxInt) := by rw [hmi]; rw [hmax] at hv; omega
      have : ((2 : Int) ^ (intSize - 1) ≤ ((maxVal : Nat) : Int)) := by rw [hpow, hmax]; norm_num
      simp [hv, hv2, this]


theorem length_le_byteLen : ∀ (s : Str), s.length ≤ byteLen s := by
  intro s
  induction s with
  | nil => simp [byteLen]
  | cons c s ih =>
    have := Char.utf8Size_pos c
    simp only [byteLen, List.map_cons, List.sum_cons, List.length_cons] at ih ⊢
    omega

/-- On fewer than 19 characters the fast loop and the loop of `ParseUint` agree. -/
theorem atoiFastLoop_parseUintLoop :
    ∀ (t : Str) (n : Nat), (n + 1) * 10 ^ t.length ≤ 10 ^ 18 →
      (atoiFastLoop (n : Int) t = none ∧ parseUintLoop n t = (0, some NumError.syntaxErr)) ∨
      (∃ v : Nat, v < 10 ^ 18 ∧ atoiFastLoop (n : Int) t = some (v : Int) ∧
        parseUintLoop n t = (v, none)) := by
  intro t
  induction t with
  | nil =>
    intro n h
    right
    exact ⟨n, by simp at h; omega, rfl, rfl⟩
  | cons c t ih =>
    intro n h
    by_cases hc : isDigit c = true
    · have hd := digitVal_le c hc
      have hpos : 1 ≤ 10 ^ t.length := Nat.one_le_pow _ _ (by norm_num)
      have hstep : (n * 10 + digitVal c + 1) * 10 ^ t.length ≤ 10 ^ 18 := by
        have e : (n + 1) * 10 ^ (c :: t).length = (n * 10 + 10) * 10 ^ t.length := by
          simp only [List.length_cons, pow_succ]; ring
        rw [e] at h
        exact le_trans (Nat.mul_le_mul_right _ (by omega)) h
      have hsmall : n * 10 + digitVal c + 1 ≤ 10 ^ 18 :=
        le_trans (Nat.le_mul_of_pos_right _ hpos) hstep
      have hmax : maxVal = 18446744073709551615 := by decide
      have h1 : ¬ ((2 ^ 64 - 1) / 10 + 1 ≤ n) := by
        have e : (2 ^ 64 - 1) / 10 + 1 = 1844674407370955162 := by norm_num
        have e2 : (10 : Nat) ^ 18 = 1000000000000000000 := by norm_num
        omega
      have h2 : ¬ (maxVal < n * 10 + digitVal c) := by
        have e2 : (10 : Nat) ^ 18 = 1000000000000000000 := by norm_num
        omega
      have hrec := ih (n * 10 + digitVal c) hstep
      simp only [atoiFastLoop, parseUintLoop, hc, Bool.not_true, Bool.false_eq_true, if_false]
      rw [if_neg h1, if_neg h2]
      have ecast : ((n : Int) * 10 + (digitVal c : Int)) = ((n * 10 + digitVal c : Nat) : Int) := by
        push_cast; ring
      rw [ecast]
      exact hrec
    · left
      simp [atoiFastLoop, parseUintLoop, hc]

/-- The fast path of `Atoi` computes what `ParseInt` computes. -/
theorem Atoi_eq_ParseInt (s : Str) : Atoi s = ParseInt s := by
  unfold Atoi
  split
  · rename_i hcond
    have hlen : s.length < 19 := by
      have := length_le_byteLen s
      rcases hcond with ⟨h32, _⟩ | ⟨_, _, h⟩
      · exact absurd h32 (by decide)
      · omega
    cases s with
    | nil => rfl
    | cons c t =>
      have hpow : (2 : Int) ^ (intSize - 1) = 9223372036854775808 := by decide
      have e18 : (10 : Nat) ^ 18 = 1000000000000000000 := by norm_num
      have key : ∀ (u : Str), u.length < 19 → u ≠ [] → ∀ (p : Prop) [Decidable p] (neg : Bool),
          neg = decide p →
          (match atoiFastLoop 0 u with
            | none => ((0 : Int), some NumError.syntaxErr)
            | some n => (if p then -n else n, none)) =
          (match ParseUint u with
            | (_, some NumError.syntaxErr) => ((0 : Int), some NumError.syntaxErr)
            | (un, _) =>
              if !neg && decide ((2 : Int) ^ (intSize - 1) ≤ (un : Int)) then
                (maxInt, some NumError.rangeErr)
              else if neg && decide ((2 : Int) ^ (intSize - 1) < (un : Int)) then
                (minInt, some NumError.rangeErr)
              else (if neg then -(un : Int) else (un : Int), none)) := by
        intro u hu hne p _ neg hneg
        have hpu : ParseUint u = parseUintLoop 0 u := by
          cases u with
          | nil => exact absurd rfl hne
          | cons a b => simp [ParseUint]
        have hb : (0 + 1) * 10 ^ u.length ≤ 10 ^ 18 := by
          simp only [Nat.zero_add, Nat.one_mul]
          exact Nat.pow_le_pow_right (by norm_num) (by omega)
        rcases atoiFastLoop_parseUintLoop u 0 hb with ⟨h1, h2⟩ | ⟨v, hv, h1, h2⟩
        · simp only [Nat.cast_zero] at h1
          rw [hpu, h1, h2]
        · simp only [Nat.cast_zero] at h1
          rw [hpu, h1, h2]
          have n1 : ¬ ((2 : Int) ^ (intSize - 1) ≤ (v : Int)) := by rw [hpow]; omega
          have n2 : ¬ ((2 : Int) ^ (intSize - 1) < (v : Int)) := by rw [hpow]; omega
          by_cases hp : p <;> simp [hneg, hp, n1, n2]
      by_cases hsign : c = '-' ∨ c = '+'
      · have hsign2 : c = '+' ∨ c = '-' := hsign.symm
        cases t with
        | nil =>
          simp [atoiFast, ParseInt, hsign, hsign2, ParseUint]
        | cons a b =>
          have hk := key (a :: b) (by simp at hlen ⊢; omega) (by simp) (c = '-')
            (decide (c = '-')) rfl
          simp only [atoiFast, ParseInt, hsign, hsign2, if_true, List.length_cons]
          rw [if_neg (by omega)]
          exact hk
      · have hsign2 : ¬ (c = '+' ∨ c = '-') := fun h => hsign h.symm
        have hk := key (c :: t) hlen (by simp) (c = '-') (decide (c = '-')) rfl
        simp only [atoiFast, ParseInt, hsign, hsign2, if_false, false_and]
        exact hk
  · rfl

theorem Atoi_digits (ds : Str) (hne : ds ≠ []) (hd : ∀ c ∈ ds, isDigit c = true)
    (hr : (decimalValue ds : Int) ≤ maxInt) : Atoi ds = ((decimalValue ds : Int), none) := by
  rw [Atoi_eq_ParseInt, ParseInt_digits ds hne hd, if_pos hr]

theorem Atoi_saturates (ds : Str) (hne : ds ≠ []) (hd : ∀ c ∈ ds, isDigit c = true)
    (hr : maxInt < (decimalValue ds : Int)) : Atoi ds = (maxInt, some NumError.rangeErr) := by
  rw [Atoi_eq_ParseInt, ParseInt_digits ds hne hd, if_neg (not_le.mpr hr)]

/-- A range error is reported at the digit that overflows, before a later character
that is not a digit is looked at; below that the character is a syntax error. -/
theorem Atoi_range_before_syntax :
    Atoi "18446744073709551616\n".toList = (maxInt, some NumError.rangeErr) ∧
    Atoi "-18446744073709551616\n".toList = (minInt, some NumError.rangeErr) ∧
    Atoi "18446744073709551615\n".toList = (0, some NumError.syntaxErr) := by
  refine ⟨by decide, by decide, by decide⟩

/-- A text without a leading integer is a syntax error of `Atoi`, with the value `0`. -/
theorem Atoi_noLeadingInteger (s : Str) (h : NoLeadingInteger s) :
    Atoi s = (0, some NumError.syntaxErr) := by
  rw [Atoi_eq_ParseInt]
  cases s with
  | nil => rfl
  | cons c t =>
    simp only [NoLeadingInteger] at h
    by_cases hsign : c = '+' ∨ c = '-'
    · rw [if_pos hsign] at h
      cases t with
      | nil => simp [ParseInt, hsign, ParseUint]
      | cons a b =>
        have ha : isDigit a = false := h a (by simp)
        simp [ParseInt, hsign, ParseUint, parseUintLoop, ha]
    · rw [if_neg hsign] at h
      simp [ParseInt, hsign, ParseUint, parseUintLoop, h]

theorem wrapInt_id (x : Int) (h1 : minInt ≤ x) (h2 : x ≤ maxInt) : wrapInt x = x := by
  unfold wrapInt
  unfold minInt at h1
  unfold maxInt at h2
  have e : intSize - 1 = 63 := rfl
  have e2 : intSize = 64 := rfl
  rw [e] at h1 h2 ⊢
  rw [e2]
  norm_num at h1 h2 ⊢
  omega

theorem splitGo_append (sep : Char) (s : Str) :
    ∀ (l cur : Str), sep ∉ l → splitGo sep cur (l ++ sep :: s) = (cur ++ l) :: splitGo sep [] s := by
  intro l
  induction l with
  | nil => intro cur _; simp [splitGo]
  | cons c l ih =>
    intro cur h
    have hc : c ≠ sep := fun e => h (by simp [e])
    have hl : sep ∉ l := fun e => h (by simp [e])
    simp [splitGo, hc, ih _ hl]

theorem splitGo_last (sep : Char) :
    ∀ (l cur : Str), sep ∉ l → splitGo sep cur l = [cur ++ l] := by
  intro l
  induction l with
  | nil => intro cur _; simp [splitGo]
  | cons c l ih =>
    intro cur h
    have hc : c ≠ sep := fun e => h (by simp [e])
    have hl : sep ∉ l := fun e => h (by simp [e])
    simp [splitGo, hc, ih _ hl]

theorem Split_cons (sep : Char) (l s : Str) (h : sep ∉ l) :
    Split (l ++ sep :: s) sep = l :: Split s sep := by
  unfold Split
  simpa using splitGo_append sep s l [] h

theorem Split_last (sep : Char) (l : Str) (h : sep ∉ l) : Split l sep = [l] := by
  unfold Split
  simpa using splitGo_last sep l [] h

theorem lazy_digits (cap g c2 : Bool) (items : List Item) (ds rest : Str) (caps : List Str)
    (r : MatchResult) (hds : IsNumber ds)
    (hk : ∀ p, matchItems (Item.rep Cls.space 1 g c2 :: items) p rest
      (if cap then caps ++ [ds] else caps) = some r) (pos : Nat) :
    matchItems (Item.rep Cls.digit 1 false cap :: Item.rep Cls.space 1 g c2 :: items) pos
      (ds ++ rest) caps = some r := by
  apply matchItems_lazy _ _ _ _ _ _ _ _ _ hds.2
  · exact Nat.succ_le_of_lt (List.length_pos.mpr hds.1)
  · intro x hx
    exact rejects_rep _ _ _ _ _ _ (by decide)
      (cls_digit_not_space x (hds.2 x (List.mem_of_mem_drop hx)))
  · exact hk _

theorem lazy_blanks (cap g c2 : Bool) (items : List Item) (ws rest : Str) (caps : List Str)
    (r : MatchResult) (hws : IsBlank ws)
    (hk : ∀ p, matchItems (Item.rep Cls.digit 1 g c2 :: items) p rest
      (if cap then caps ++ [ws] else caps) = some r) (pos : Nat) :
    matchItems (Item.rep Cls.space 1 false cap :: Item.rep Cls.digit 1 g c2 :: items) pos
      (ws ++ rest) caps = some r := by
  apply matchItems_lazy _ _ _ _ _ _ _ _ _ hws.2
  · exact Nat.succ_le_of_lt (List.length_pos.mpr hws.1)
  · intro x hx
    exact rejects_rep _ _ _ _ _ _ (by decide)
      (cls_space_not_digit x (hws.2 x (List.mem_of_mem_drop hx)))
  · exact hk _

/-- The tail `(?:\s+?)(.+)$` of both line patterns: one white space character, then the
rest of the line. -/
theorem lazy_blank_rest (cap : Bool) (sp : Char) (tail : Str) (caps : List Str)
    (hsp : Cls.space.test sp = true) (hne : tail ≠ []) (hnl : ∀ x ∈ tail, x ≠ '\n') (pos : Nat) :
    matchItems [Item.rep Cls.space 1 false false, Item.rep Cls.dot 1 true cap, Item.eos] pos
      (sp :: tail) caps = some (if cap then caps ++ [tail] else caps, []) := by
  have h := matchItems_lazy Cls.space 1 false [Item.rep Cls.dot 1 true cap, Item.eos] pos [sp] tail
    caps (if cap then caps ++ [tail] else caps, [])
    (by intro x hx; simp at hx; subst hx; exact hsp) (by simp) (by simp)
    (by
      have h2 := matchItems_greedy Cls.dot 1 cap [Item.eos] (pos + [sp].length) tail [] caps
        (if cap then caps ++ [tail] else caps, [])
        (by intro x hx; simpa [Cls.test] using hnl x hx)
        (Nat.succ_le_of_lt (List.length_pos.mpr hne)) (by simp) (by simp [matchItems])
      simpa using h2)
  simpa using h

theorem matchItems_bos (items : List Item) (s : Str) (caps : List Str) :
    matchItems (Item.bos :: items) 0 s caps = matchItems items 0 s caps := by
  simp [matchItems]

theorem skip_head (t : List Item) (n : Nat) :
    ∃ t2, (List.replicate n skipCounter).flatten ++ (Item.rep Cls.space 1 false false :: t)
      = Item.rep Cls.space 1 false false :: t2 := by
  cases n with
  | zero => exact ⟨t, by simp⟩
  | succ n => exact ⟨_, by simp [List.replicate_succ, skipCounter]; rfl⟩

theorem skip_counters (g c2 : Bool) (items : List Item) (rest : Str) (caps : List Str)
    (r : MatchResult) :
    ∀ (mid : List (Str × Str)), (∀ p ∈ mid, IsBlank p.1 ∧ IsNumber p.2) →
      (∀ p, matchItems (Item.rep Cls.space 1 false false :: Item.rep Cls.digit 1 g c2 :: items) p
        rest caps = some r) →
      ∀ pos, matchItems ((List.replicate mid.length skipCounter).flatten ++
          (Item.rep Cls.space 1 false false :: Item.rep Cls.digit 1 g c2 :: items)) pos
        ((mid.map fun p => p.1 ++ p.2).flatten ++ rest) caps = some r := by
  intro mid
  induction mid with
  | nil => intro _ hk pos; simpa using hk pos
  | cons m mid ih =>
    intro hmid hk pos
    have hm := hmid m (by simp)
    have ih2 := ih (fun p hp => hmid p (by simp [hp])) hk
    obtain ⟨t2, ht2⟩ := skip_head (Item.rep Cls.digit 1 g c2 :: items) mid.length
    have e1 : (List.replicate (m :: mid).length skipCounter).flatten ++
          (Item.rep Cls.space 1 false false :: Item.rep Cls.digit 1 g c2 :: items)
        = Item.rep Cls.space 1 false false :: Item.rep Cls.digit 1 false false ::
          Item.rep Cls.space 1 false false :: t2 := by
      rw [← ht2]; simp [List.replicate_succ, skipCounter]
    have e2 : ((m :: mid).map fun p => p.1 ++ p.2).flatten ++ rest
        = m.1 ++ (m.2 ++ ((mid.map fun p => p.1 ++ p.2).flatten ++ rest)) := by simp
    rw [e1, e2]
    apply lazy_blanks _ _ _ _ _ _ _ _ hm.1
    intro p
    apply lazy_digits _ _ _ _ _ _ _ _ hm.2
    intro p2
    simp only [Bool.false_eq_true, if_false]
    rw [← ht2]
    exact ih2 p2

theorem regexpNetDev_eq :
    regexpNetDev = Item.bos :: Item.rep Cls.dot 1 false false :: Item.lit ": ".toList ::
      Item.rep Cls.digit 1 false true :: ((List.replicate 7 skipCounter).flatten ++
        (Item.rep Cls.space 1 false false :: Item.rep Cls.digit 1 false true ::
          [Item.rep Cls.space 1 false false, Item.rep Cls.dot 1 true false, Item.eos])) := by
  rfl

theorem netDev_match (l : NetLine) (h : l.WellFormed) :
    matchItems regexpNetDev 0 l.text [] = some ([l.rx, l.tx], []) := by
  obtain ⟨hnl, hne, hcolon, hrx, hlen, hmid, hsep, htx, hsp, htail⟩ := h
  have hnl2 : ∀ x ∈ l.text, x ≠ '\n' := fun x hx e => hnl (e ▸ hx)
  rw [regexpNetDev_eq, ← hlen]
  obtain ⟨t2, ht2⟩ := skip_head (Item.rep Cls.digit 1 false true ::
    [Item.rep Cls.space 1 false false, Item.rep Cls.dot 1 true false, Item.eos]) l.skipped.length
  rw [matchItems_bos]
  show matchItems (Item.rep Cls.dot 1 false false :: _) 0 ((l.pad ++ l.name) ++ _) [] = _
  apply matchItems_lazy
  · intro x hx
    have := hnl2 x (by simp only [NetLine.text]; exact List.mem_append_left _ hx)
    simpa [Cls.test] using this
  · exact Nat.succ_le_of_lt (List.length_pos.mpr hne)
  · intro x hx
    apply rejects_lit
    intro e
    exact hcolon (e ▸ List.mem_of_mem_drop hx)
  · rw [matchItems_lit, ht2]
    apply lazy_digits _ _ _ _ _ _ _ _ hrx
    intro p
    rw [← ht2]
    apply skip_counters _ _ _ _ _ _ _ hmid
    intro p2
    apply lazy_blanks _ _ _ _ _ _ _ _ hsep
    intro p3
    apply lazy_digits _ _ _ _ _ _ _ _ htx
    intro p4
    have hr := lazy_blank_rest false l.sepTail l.tail ([] ++ [l.rx] ++ [l.tx]) hsp htail
      (fun x hx => hnl2 x (by simp only [NetLine.text]; simp [hx])) p4
    simpa using hr

theorem netDev_find (l : NetLine) (h : l.WellFormed) :
    FindStringSubmatch regexpNetDev l.text = some [l.text, l.rx, l.tx] := by
  unfold FindStringSubmatch
  rw [findFrom_hit _ _ _ _ _ (netDev_match l h)]
  simp

theorem disk_match (r : DfRow) (h : r.WellFormed) :
    matchItems regexpDisk 0 r.text [] = some ([r.filesystem, r.total, r.available, r.mount], []) := by
  obtain ⟨hnl, hne, hfs, hs1, htot, hs2, hused, hs3, hav, hs4, hpct, hsp, hmount⟩ := h
  have hnl2 : ∀ x ∈ r.text, x ≠ '\n' := fun x hx e => hnl (e ▸ hx)
  unfold regexpDisk
  rw [matchItems_bos]
  show matchItems (Item.rep Cls.dot 1 false true :: _) 0 (r.filesystem ++ _) [] = _
  apply matchItems_lazy
  · intro x hx
    have := hnl2 x (by simp only [DfRow.text]; exact List.mem_append_left _ hx)
    simpa [Cls.test] using this
  · exact Nat.succ_le_of_lt (List.length_pos.mpr hne)
  · intro x hx
    exact rejects_rep _ _ _ _ _ _ (by decide) (hfs x (List.mem_of_mem_drop hx))
  · apply lazy_blanks _ _ _ _ _ _ _ _ hs1
    intro p1
    apply lazy_digits _ _ _ _ _ _ _ _ htot
    intro p2
    apply lazy_blanks _ _ _ _ _ _ _ _ hs2
    intro p3
    apply lazy_digits _ _ _ _ _ _ _ _ hused
    intro p4
    apply lazy_blanks _ _ _ _ _ _ _ _ hs3
    intro p5
    apply lazy_digits _ _ _ _ _ _ _ _ hav
    intro p6
    apply lazy_blanks _ _ _ _ _ _ _ _ hs4
    intro p7
    apply matchItems_lazy _ _ _ _ _ _ _ _ _ hpct.2
    · exact Nat.succ_le_of_lt (List.length_pos.mpr hpct.1)
    · intro x hx
      apply rejects_lit
      intro e
      have hd := hpct.2 x (List.mem_of_mem_drop hx)
      rw [e] at hd
      exact absurd hd (by decide)
    · rw [matchItems_lit]
      have hr := lazy_blank_rest true r.sepMount r.mount
        ([] ++ [r.filesystem] ++ [r.total] ++ [r.available]) hsp hmount
        (fun x hx => hnl2 x (by simp only [DfRow.text]; simp [hx]))
      simpa using hr _

theorem disk_find (r : DfRow) (h : r.WellFormed) :
    FindStringSubmatch regexpDisk r.text
      = some [r.text, r.filesystem, r.total, r.available, r.mount] := by
  unfold FindStringSubmatch
  rw [findFrom_hit _ _ _ _ _ (disk_match r h)]
  simp

theorem Split_unlines :
    ∀ (ls : List Str), (∀ l ∈ ls, '\n' ∉ l) → Split (unlines ls) '\n' = ls ++ [[]] := by
  intro ls
  induction ls with
  | nil => intro _; rfl
  | cons l ls ih =>
    intro h
    have e : unlines (l :: ls) = l ++ '\n' :: unlines ls := by simp [unlines]
    rw [e, Split_cons _ _ _ (h l (by simp)), ih (fun m hm => h m (by simp [hm]))]
    rfl

theorem diskRows_wellFormed :
    ∀ (rows : List DfRow) (acc : List disk),
      (∀ r ∈ rows, r.WellFormed ∧ (decimalValue r.total : Int) ≤ maxInt
        ∧ (decimalValue r.available : Int) ≤ maxInt) →
      diskRows (rows.map DfRow.text) acc = some (acc ++ rows.map DfRow.toDisk) := by
  intro rows
  induction rows with
  | nil => intro acc _; simp [diskRows]
  | cons r rows ih =>
    intro acc h
    obtain ⟨hwf, ht, ha⟩ := h r (by simp)
    have hrec := ih (acc ++ [r.toDisk]) (fun q hq => h q (by simp [hq]))
    have htot := Atoi_digits r.total hwf.2.2.2.2.1.1 hwf.2.2.2.2.1.2 ht
    have hav := Atoi_digits r.available hwf.2.2.2.2.2.2.2.2.1.1 hwf.2.2.2.2.2.2.2.2.1.2 ha
    simp only [List.map_cons, diskRows, disk_find r hwf]
    simp only [List.getElem?_cons_succ, List.getElem?_cons_zero, htot, hav]
    simpa [DfRow.toDisk] using hrec

/-! ## The memory sampler -/

/-- The value a memory pattern yields: the groups of its match, if any, read by `Atoi`. -/
theorem memPattern_value (key text ds : Str) (hkey : key ≠ []) (h : KeyLineValue key text ds) :
    FindStringSubmatch (memPattern key) text ≠ none ∧
    ∀ m, FindStringSubmatch (memPattern key) text = some m → m.getD 1 [] = ds := by
  obtain ⟨pre, ws, rest, rfl, _, hfirst, hws, hds, hrest⟩ := h
  have hf := find_memPattern key pre ws ds rest hkey hfirst hws hds.2 hrest
    (fun e => absurd e hds.1)
  rw [hf]
  refine ⟨by simp, ?_⟩
  intro m hm
  injection hm with hm
  subst hm
  rfl

theorem memPattern_noValue (key text : Str) (hkey : key ≠ []) (h : KeyLineNoValue key text) :
    FindStringSubmatch (memPattern key) text ≠ none ∧
    ∀ m, FindStringSubmatch (memPattern key) text = some m → m.getD 1 [] = [] := by
  obtain ⟨pre, ws, rest, rfl, _, hfirst, hws, hrest⟩ := h
  have hf := find_memPattern key pre ws [] rest hkey hfirst hws (by simp)
    (fun y hy => (hrest y hy).1) (fun _ y hy => (hrest y hy).2)
  simp only [List.nil_append] at hf
  rw [hf]
  refine ⟨by simp, ?_⟩
  intro m hm
  injection hm with hm
  subst hm
  rfl

theorem Atoi_number (ds : Str) (h : IsNumber ds) :
    (Atoi ds).1 = min (decimalValue ds : Int) maxInt := by
  by_cases hr : (decimalValue ds : Int) ≤ maxInt
  · rw [Atoi_digits ds h.1 h.2 hr, min_eq_left hr]
  · have hr2 : maxInt < (decimalValue ds : Int) := lt_of_not_le hr
    rw [Atoi_saturates ds h.1 h.2 hr2, min_eq_right (le_of_lt hr2)]

/-- What one field of the memory sampler holds, whatever its default. -/
theorem memField (key text : Str) (dflt : Int) (hkey : key ≠ []) :
    (Contains text key = false →
      (match FindStringSubmatch (memPattern key) text with
        | some m => (Atoi (m.getD 1 [])).1
        | none => dflt) = dflt) ∧
    (∀ ds, KeyLineValue key text ds →
      (match FindStringSubmatch (memPattern key) text with
        | some m => (Atoi (m.getD 1 [])).1
        | none => dflt) = min (decimalValue ds : Int) maxInt) ∧
    (KeyLineNoValue key text →
      (match FindStringSubmatch (memPattern key) text with
        | some m => (Atoi (m.getD 1 [])).1
        | none => dflt) = 0) := by
  refine ⟨?_, ?_, ?_⟩
  · intro h
    rw [find_memPattern_none key text h]
  · intro ds h
    have hnum : IsNumber ds := by
      obtain ⟨_, _, _, _, _, _, _, hds, _⟩ := h
      exact hds
    obtain ⟨hne, hval⟩ := memPattern_value key text ds hkey h
    cases hm : FindStringSubmatch (memPattern key) text with
    | none => exact absurd hm hne
    | some m =>
      simp only
      rw [hval m hm]
      exact Atoi_number ds hnum
  · intro h
    obtain ⟨hne, hval⟩ := memPattern_noValue key text hkey h
    cases hm : FindStringSubmatch (memPattern key) text with
    | none => exact absurd hm hne
    | some m =>
      simp only
      rw [hval m hm]
      rfl

/-- C1 (as amended): when the memory statistics hold a line `MemFree: f`, a line
`Buffers: b` and a line `Cached: c` with decimal numbers `f`, `b` and `c`, none of the
three texts `MemFree:`, `Buffers:`, `Cached:` occurs before its line, and `f + b + c` is
at most the largest `int`, one pass of the memory sampler sets `MemFree` to exactly
`f + b + c`. -/
theorem collectMemInfo_memFree (st : stats) (text f b c : Str)
    (hf : KeyLineValue "MemFree:".toList text f)
    (hb : KeyLineValue "Buffers:".toList text b)
    (hc : KeyLineValue "Cached:".toList text c)
    (hsum : (decimalValue f : Int) + decimalValue b + decimalValue c ≤ maxInt) :
    (collectMemInfo text st).MemFree = (decimalValue f : Int) + decimalValue b + decimalValue c := by
  have hF := (memField "MemFree:".toList text (-1) (by decide)).2.1 f hf
  have hB := (memField "Buffers:".toList text 0 (by decide)).2.1 b hb
  have hC := (memField "Cached:".toList text 0 (by decide)).2.1 c hc
  have nf : (0 : Int) ≤ decimalValue f := Int.ofNat_nonneg _
  have nb : (0 : Int) ≤ decimalValue b := Int.ofNat_nonneg _
  have nc : (0 : Int) ≤ decimalValue c := Int.ofNat_nonneg _
  have hmin : minInt ≤ 0 := by decide
  rw [min_eq_left (show (decimalValue f : Int) ≤ maxInt by omega)] at hF
  rw [min_eq_left (show (decimalValue b : Int) ≤ maxInt by omega)] at hB
  rw [min_eq_left (show (decimalValue c : Int) ≤ maxInt by omega)] at hC
  have w1 : wrapInt ((decimalValue f : Int) + decimalValue b) = (decimalValue f : Int) + decimalValue b :=
    wrapInt_id _ (by omega) (by omega)
  have w2 : wrapInt ((decimalValue f : Int) + decimalValue b + decimalValue c)
      = (decimalValue f : Int) + decimalValue b + decimalValue c :=
    wrapInt_id _ (by omega) (by omega)
  show wrapInt (wrapInt (_ + _) + _) = _
  unfold regexpMemFree regexpBuffers regexpCached
  rw [hF, hB, hC, w1, w2]

/-- C1, witness: on a text in the layout of `/proc/meminfo` with MemFree 100, Buffers 20
and Cached 30 the sampler stores 150. -/
theorem collectMemInfo_memFree_witness :
    KeyLineValue "MemFree:".toList sampleMemInfo "100".toList ∧
    KeyLineValue "Buffers:".toList sampleMemInfo "20".toList ∧
    KeyLineValue "Cached:".toList sampleMemInfo "30".toList ∧
    (decimalValue "100".toList : Int) + decimalValue "20".toList + decimalValue "30".toList
      ≤ maxInt ∧
    (collectMemInfo sampleMemInfo stats.zero).MemFree = 150 :=
  have hf : KeyLineValue "MemFree:".toList sampleMemInfo "100".toList :=
    ⟨"MemTotal:        8000 kB\n".toList, "          ".toList,
     (" kB\nBuffers:           20 kB\n" ++
      "Cached:            30 kB\nSwapCached:         0 kB\nSwapTotal:          0 kB\n").toList,
     by decide, by simp only [AtLineStart]; decide, by decide, by decide,
     by simp only [IsNumber]; decide, by decide⟩
  have hb : KeyLineValue "Buffers:".toList sampleMemInfo "20".toList :=
    ⟨"MemTotal:        8000 kB\nMemFree:          100 kB\n".toList, "           ".toList,
     (" kB\nCached:            30 kB\nSwapCached:         0 kB\nSwapTotal:          0 kB\n").toList,
     by decide, by simp only [AtLineStart]; decide, by decide, by decide,
     by simp only [IsNumber]; decide, by decide⟩
  have hc : KeyLineValue "Cached:".toList sampleMemInfo "30".toList :=
    ⟨"MemTotal:        8000 kB\nMemFree:          100 kB\nBuffers:           20 kB\n".toList,
     "            ".toList, " kB\nSwapCached:         0 kB\nSwapTotal:          0 kB\n".toList,
     by decide, by simp only [AtLineStart]; decide, by decide, by decide,
     by simp only [IsNumber]; decide, by decide⟩
  ⟨hf, hb, hc, by decide,
   collectMemInfo_memFree stats.zero sampleMemInfo "100".toList "20".toList "30".toList hf hb hc
     (by decide)⟩

/-- C1 (as stated) fails in two ways.  With a `SwapCached` line before the `Cached`
line the pattern `Cached:` matches inside `SwapCached:` and the sum is 100 + 20 + 5; and
a sum that `int` cannot hold wraps around. -/
theorem collectMemInfo_memFree_counterexample :
    (collectMemInfo
        "MemFree: 100 kB\nBuffers: 20 kB\nSwapCached: 5 kB\nCached: 30 kB\n".toList
        stats.zero).MemFree = 125 ∧
    (125 : Int) ≠ 100 + 20 + 30 ∧
    (collectMemInfo
        "MemFree: 9223372036854775807 kB\nBuffers: 20 kB\nCached: 30 kB\n".toList
        stats.zero).MemFree = -9223372036854775759 ∧
    (-9223372036854775759 : Int) ≠ 9223372036854775807 + 20 + 30 := by
  refine ⟨by decide, by decide, by decide, by decide⟩

/-- C4 (as amended): after one pass of the memory sampler each of `MemTotal`, `SwapTotal`
and `SwapFree` is `-1` when the text does not hold its key; is the decimal number on
the line of its key, zero included, capped at the largest `int`, when the key does
not occur before that line; and is `0` when no digit follows the key and the white
space after it on that line. -/
theorem collectMemInfo_totals (st : stats) (text key : Str) (v : Int)
    (hkv : (key, v) ∈ [("MemTotal:".toList, (collectMemInfo text st).MemTotal),
      ("SwapTotal:".toList, (collectMemInfo text st).SwapTotal),
      ("SwapFree:".toList, (collectMemInfo text st).SwapFree)]) :
    (Contains text key = false → v = -1) ∧
    (∀ ds, KeyLineValue key text ds → v = min (decimalValue ds : Int) maxInt) ∧
    (KeyLineNoValue key text → v = 0) := by
  simp only [List.mem_cons, Prod.mk.injEq, List.mem_singleton, List.not_mem_nil, or_false] at hkv
  rcases hkv with ⟨rfl, rfl⟩ | ⟨rfl, rfl⟩ | ⟨rfl, rfl⟩
  · exact memField "MemTotal:".toList text (-1) (by decide)
  · exact memField "SwapTotal:".toList text (-1) (by decide)
  · exact memField "SwapFree:".toList text (-1) (by decide)

/-- C4, witness: on a text in the layout of `/proc/meminfo` whose `SwapTotal` line reads 0
the sampler stores 0. -/
theorem collectMemInfo_totals_witness :
    (("SwapTotal:".toList, (collectMemInfo sampleMemInfo stats.zero).SwapTotal)
      ∈ [("MemTotal:".toList, (collectMemInfo sampleMemInfo stats.zero).MemTotal),
          ("SwapTotal:".toList, (collectMemInfo sampleMemInfo stats.zero).SwapTotal),
          ("SwapFree:".toList, (collectMemInfo sampleMemInfo stats.zero).SwapFree)]) ∧
    KeyLineValue "SwapTotal:".toList sampleMemInfo "0".toList ∧
    (collectMemInfo sampleMemInfo stats.zero).SwapTotal = 0 :=
  have hmem : ("SwapTotal:".toList, (collectMemInfo sampleMemInfo stats.zero).SwapTotal)
      ∈ [("MemTotal:".toList, (collectMemInfo sampleMemInfo stats.zero).MemTotal),
          ("SwapTotal:".toList, (collectMemInfo sampleMemInfo stats.zero).SwapTotal),
          ("SwapFree:".toList, (collectMemInfo sampleMemInfo stats.zero).SwapFree)] := by
    simp
  have hv : KeyLineValue "SwapTotal:".toList sampleMemInfo "0".toList :=
    ⟨("MemTotal:        8000 kB\nMemFree:          100 kB\nBuffers:           20 kB\n" ++
      "Cached:            30 kB\nSwapCached:         0 kB\n").toList,
     "          ".toList, " kB\n".toList,
     by decide, by simp only [AtLineStart]; decide, by decide, by decide,
     by simp only [IsNumber]; decide, by decide⟩
  ⟨hmem, hv, (collectMemInfo_totals stats.zero sampleMemInfo "SwapTotal:".toList _ hmem).2.1 _ hv⟩

/-- C4 (as stated) fails in three ways: a key whose value is not a decimal number gives
`0`, not the sentinel `-1`; a value that `int` cannot hold gives the largest `int`; and
a key that ends the key of an earlier line takes the value of that line. -/
theorem collectMemInfo_totals_counterexample :
    (collectMemInfo
        "MemTotal: unknown\nSwapTotal: 9223372036854775808 kB\nZSwapFree: 7 kB\nSwapFree: 9 kB\n".toList
        stats.zero).MemTotal = 0 ∧
    (0 : Int) ≠ -1 ∧
    (collectMemInfo
        "MemTotal: unknown\nSwapTotal: 9223372036854775808 kB\nZSwapFree: 7 kB\nSwapFree: 9 kB\n".toList
        stats.zero).SwapTotal = 9223372036854775807 ∧
    (9223372036854775807 : Int) ≠ 9223372036854775808 ∧
    (collectMemInfo
        "MemTotal: unknown\nSwapTotal: 9223372036854775808 kB\nZSwapFree: 7 kB\nSwapFree: 9 kB\n".toList
        stats.zero).SwapFree = 7 ∧
    (7 : Int) ≠ 9 := by
  refine ⟨by decide, by decide, by decide, by decide, by decide, by decide⟩

/-! ## The network sampler -/

theorem scanLines_skip (adapter : Str) (rest : List Str) :
    ∀ (before : List Str), (∀ l ∈ before, Contains l (adapter ++ ": ".toList) = false) →
      scanLines adapter (before ++ rest) = scanLines adapter rest := by
  intro before
  induction before with
  | nil => intro _; rfl
  | cons b before ih =>
    intro h
    have hb := h b (by simp)
    simp only [List.cons_append, scanLines, hb, Bool.not_false, if_true]
    exact ih (fun l hl => h l (by simp [hl]))

theorem netLine_contains (l : NetLine) : Contains l.text (l.name ++ ": ".toList) = true := by
  have e : l.text = l.pad ++ (l.name ++ ": ".toList) ++ (l.rx ++ ((l.skipped.map fun p => p.1 ++ p.2).flatten ++
      (l.sepTx ++ (l.tx ++ l.sepTail :: l.tail)))) := by
    simp [NetLine.text]
  rw [e]
  exact contains_true_of_append _ _ _

/-- The scan of a read in which the only line with the adapter's name is well-formed. -/
theorem scanLines_found (adapter : Str) (before after : List Str) (l : NetLine)
    (hwf : l.WellFormed) (hname : l.name = adapter)
    (hbefore : ∀ m ∈ before, Contains m (adapter ++ ": ".toList) = false)
    (hnl : ∀ m ∈ before ++ after, '\n' ∉ m)
    (hrx : (decimalValue l.rx : Int) ≤ maxInt) (htx : (decimalValue l.tx : Int) ≤ maxInt) :
    scanLines adapter (Split (unlines (before ++ l.text :: after)) '\n')
      = Scan.found (decimalValue l.rx) (decimalValue l.tx) := by
  have hsplit : Split (unlines (before ++ l.text :: after)) '\n'
      = before ++ (l.text :: (after ++ [[]])) := by
    rw [Split_unlines]
    · simp
    · intro m hm
      rcases List.mem_append.mp hm with h | h
      · exact hnl m (List.mem_append_left _ h)
      · rcases List.mem_cons.mp h with h | h
        · rw [h]; exact hwf.1
        · exact hnl m (List.mem_append_right _ h)
  have hc : Contains l.text (adapter ++ ": ".toList) = true := by
    rw [← hname]; exact netLine_contains l
  rw [hsplit, scanLines_skip adapter _ before hbefore]
  simp only [scanLines, hc, Bool.not_true, netDev_find l hwf]
  simp [Atoi_digits l.rx hwf.2.2.2.1.1 hwf.2.2.2.1.2 hrx,
    Atoi_digits l.tx hwf.2.2.2.2.2.2.2.1.1 hwf.2.2.2.2.2.2.2.1.2 htx]

theorem decimalValue_nonneg_range (a b : Nat) (ha : (a : Int) ≤ maxInt) (hb : (b : Int) ≤ maxInt) :
    wrapInt ((a : Int) - (b : Int)) = (a : Int) - (b : Int) := by
  apply wrapInt_id
  · unfold minInt; unfold maxInt at hb
    have e : intSize - 1 = 63 := rfl
    rw [e] at hb ⊢
    omega
  · have : (0 : Int) ≤ (b : Int) := Int.ofNat_nonneg b
    omega

/-- C2 (as amended): when in each of the two reads exactly one line holds the text
`<adapter>: `, that line is well-formed and its first and ninth counters are at most
the largest `int`, one pass of the network sampler stores the second read's first
counter minus the first read's as `NetDown` and the same difference of the ninth
counters as `NetUp`. -/
theorem collectNetInfo_rates (st : stats) (adapter : Str) (before1 after1 before2 after2 : List Str)
    (l1 l2 : NetLine) (hwf1 : l1.WellFormed) (hwf2 : l2.WellFormed)
    (hname1 : l1.name = adapter) (hname2 : l2.name = adapter)
    (hother : ∀ m ∈ before1 ++ after1 ++ before2 ++ after2,
      '\n' ∉ m ∧ Contains m (adapter ++ ": ".toList) = false)
    (hrange : (decimalValue l1.rx : Int) ≤ maxInt ∧ (decimalValue l1.tx : Int) ≤ maxInt ∧
      (decimalValue l2.rx : Int) ≤ maxInt ∧ (decimalValue l2.tx : Int) ≤ maxInt) :
    collectNetInfo adapter (unlines (before1 ++ l1.text :: after1))
        (unlines (before2 ++ l2.text :: after2)) st
      = Outcome.next { st with
          NetDown := (decimalValue l2.rx : Int) - (decimalValue l1.rx : Int)
          NetUp := (decimalValue l2.tx : Int) - (decimalValue l1.tx : Int) } := by
  obtain ⟨hr1, ht1, hr2, ht2⟩ := hrange
  have hs1 := scanLines_found adapter before1 after1 l1 hwf1 hname1
    (fun m hm => (hother m (by simp [hm])).2)
    (fun m hm => (hother m (by
      rcases List.mem_append.mp hm with h | h <;> simp [h])).1) hr1 ht1
  have hs2 := scanLines_found adapter before2 after2 l2 hwf2 hname2
    (fun m hm => (hother m (by simp [hm])).2)
    (fun m hm => (hother m (by
      rcases List.mem_append.mp hm with h | h <;> simp [h])).1) hr2 ht2
  simp only [collectNetInfo, hs1, hs2, decimalValue_nonneg_range _ _ hr2 hr1,
    decimalValue_nonneg_range _ _ ht2 ht1]

/-- C2, witness: received counters 1000 then 1500 and transmitted counters 2000 then 2700
of `eth0`, each read with the loopback line first, give the rates 500 and 700. -/
theorem collectNetInfo_rates_witness :
    (unlines ([loLine] ++ (sampleLine "1000".toList "2000".toList).text :: [])
        = ("    lo: 2776770 11307 0 0 0 0 0 0 2776770 11307 0 0 0 0 0 0\n" ++
           "  eth0: 1000 0 0 0 0 0 0 0 2000 0 0 0 0 0 0 0\n").toList) ∧
      (sampleLine "1000".toList "2000".toList).WellFormed ∧
      (sampleLine "1500".toList "2700".toList).WellFormed ∧
      (∀ m ∈ [loLine] ++ [] ++ [loLine] ++ [],
        '\n' ∉ m ∧ Contains m ("eth0".toList ++ ": ".toList) = false) ∧
      ((decimalValue (sampleLine "1000".toList "2000".toList).rx : Int) ≤ maxInt ∧
        (decimalValue (sampleLine "1000".toList "2000".toList).tx : Int) ≤ maxInt ∧
        (decimalValue (sampleLine "1500".toList "2700".toList).rx : Int) ≤ maxInt ∧
        (decimalValue (sampleLine "1500".toList "2700".toList).tx : Int) ≤ maxInt) ∧
      collectNetInfo "eth0".toList
          (unlines ([loLine] ++ (sampleLine "1000".toList "2000".toList).text :: []))
          (unlines ([loLine] ++ (sampleLine "1500".toList "2700".toList).text :: []))
          { stats.zero with NetDown := 42, NetUp := 42 }
        = Outcome.next { stats.zero with NetDown := 500, NetUp := 700 } :=
  ⟨by decide,
   by simp only [NetLine.WellFormed, IsNumber, IsBlank]; decide,
   by simp only [NetLine.WellFormed, IsNumber, IsBlank]; decide,
   by decide,
   by simp only [maxInt]; decide,
   collectNetInfo_rates _ "eth0".toList [loLine] [] [loLine] []
     (sampleLine "1000".toList "2000".toList) (sampleLine "1500".toList "2700".toList)
     (by simp only [NetLine.WellFormed, IsNumber, IsBlank]; decide)
     (by simp only [NetLine.WellFormed, IsNumber, IsBlank]; decide)
     rfl rfl (by decide) (by simp only [maxInt]; decide)⟩

/-- C2 (as stated) fails on counters that `int` cannot hold: both reads are well-formed
and the received counter grows by 500, from `9223372036854775808`, yet the stored
download rate is `0`. -/
theorem collectNetInfo_rates_counterexample :
    collectNetInfo "eth0".toList
        "  eth0: 9223372036854775808 0 0 0 0 0 0 0 2000 0 0 0 0 0 0 0\n".toList
        "  eth0: 9223372036854776308 0 0 0 0 0 0 0 2700 0 0 0 0 0 0 0\n".toList
        { stats.zero with NetDown := 42, NetUp := 42 }
      = Outcome.next { stats.zero with NetDown := 0, NetUp := 700 } ∧
    (0 : Int) ≠ 9223372036854776308 - 9223372036854775808 := by
  constructor
  · decide
  · decide

/-! ## The disk sampler -/

/-- C3 (as amended): for every output of `df` made of a header line followed by `n`
newline-terminated well-formed rows whose total and available columns are at most
the largest `int`, one pass of the disk sampler ends normally and sets `Disks` to
exactly the `n` entries of the rows, in row order, each holding the filesystem, total,
available and mount columns of its row, whatever the record held before. -/
theorem collectDiskInfo_rows (st : stats) (header : Str) (rows : List DfRow)
    (hheader : '\n' ∉ header)
    (hrows : ∀ r ∈ rows, r.WellFormed ∧ (decimalValue r.total : Int) ≤ maxInt
      ∧ (decimalValue r.available : Int) ≤ maxInt) :
    collectDiskInfo (some (dfOutput header rows)) st
      = Outcome.next { st with Disks := rows.map DfRow.toDisk } := by
  have hsplit : Split (dfOutput header rows) '\n' = header :: (rows.map DfRow.text ++ [[]]) := by
    unfold dfOutput
    rw [Split_cons _ _ _ hheader, Split_unlines]
    intro l hl
    obtain ⟨r, hr, rfl⟩ := List.mem_map.mp hl
    exact (hrows r hr).1.1
  simp only [collectDiskInfo, hsplit, List.drop_succ_cons, List.drop_zero,
    List.dropLast_concat, diskRows_wellFormed rows [] hrows, List.nil_append]

/-- C3, witness: two rows in the layout of `df` replace the one entry held before. -/
theorem collectDiskInfo_rows_witness :
    dfOutput "Filesystem 1kB-blocks Used Available Use% Mounted on".toList sampleRows
        = ("Filesystem 1kB-blocks Used Available Use% Mounted on\n" ++
           "/dev/sda1   1000 400  600  40% /\n" ++
           "tmpfs 50 0 50 0% /dev/shm\n").toList ∧
      '\n' ∉ "Filesystem 1kB-blocks Used Available Use% Mounted on".toList ∧
      (∀ r ∈ sampleRows, r.WellFormed ∧ (decimalValue r.total : Int) ≤ maxInt
        ∧ (decimalValue r.available : Int) ≤ maxInt) ∧
      collectDiskInfo
          (some (dfOutput "Filesystem 1kB-blocks Used Available Use% Mounted on".toList sampleRows))
          { stats.zero with Disks := [{ Total := 1, Free := 1, Mount := [], Filesystem := [] }] }
        = Outcome.next { stats.zero with Disks :=
            [ { Total := 1000, Free := 600, Mount := "/".toList, Filesystem := "/dev/sda1".toList },
              { Total := 50, Free := 50, Mount := "/dev/shm".toList, Filesystem := "tmpfs".toList } ] } :=
  have hrows : ∀ r ∈ sampleRows, r.WellFormed ∧ (decimalValue r.total : Int) ≤ maxInt
      ∧ (decimalValue r.available : Int) ≤ maxInt := by
    intro r hr
    simp only [sampleRows, List.mem_cons, List.mem_singleton, List.not_mem_nil, or_false] at hr
    rcases hr with rfl | rfl <;>
      simp only [DfRow.WellFormed, IsNumber, IsBlank, maxInt] <;> decide
  ⟨by decide, by decide, hrows, collectDiskInfo_rows _ _ sampleRows (by decide) hrows⟩

/-- C3 (as stated) fails on a total that `int` cannot hold: column 2 of the row is
`9223372036854775808`, the stored total is `9223372036854775807`. -/
theorem collectDiskInfo_rows_counterexample :
    collectDiskInfo
        (some ("Filesystem 1kB-blocks Used Available Use% Mounted on\n" ++
               "/dev/sda1 9223372036854775808 0 100 0% /\n").toList) stats.zero
      = Outcome.next { stats.zero with Disks :=
          [ { Total := 9223372036854775807, Free := 100, Mount := "/".toList,
              Filesystem := "/dev/sda1".toList } ] } ∧
    (9223372036854775807 : Int) ≠ 9223372036854775808 := by
  constructor
  · decide
  · decide

/-! ## The load sampler -/

theorem splitGo_head (sep : Char) :
    ∀ (s cur : Str), (splitGo sep cur s)[0]? = some (cur ++ s.takeWhile (fun c => c != sep)) := by
  intro s
  induction s with
  | nil => intro cur; simp [splitGo]
  | cons c s ih =>
    intro cur
    by_cases h : c = sep
    · simp [splitGo, h, List.takeWhile]
    · have hb : (c != sep) = true := by simpa using h
      simp [splitGo, h, List.takeWhile, ih, hb]

theorem Split_head (s : Str) (sep : Char) :
    (Split s sep)[0]? = some (s.takeWhile (fun c => c != sep)) := by
  unfold Split
  simpa using splitGo_head sep s []

theorem Split_joinWith (sep : Char) :
    ∀ (fs : List Str), fs ≠ [] → (∀ f ∈ fs, sep ∉ f) → Split (joinWith sep fs) sep = fs := by
  intro fs
  induction fs with
  | nil => intro h; exact absurd rfl h
  | cons f fs ih =>
    intro _ hsep
    cases fs with
    | nil => simpa [joinWith] using Split_last sep f (hsep f (by simp))
    | cons g fs =>
      simp only [joinWith]
      rw [Split_cons _ _ _ (hsep f (by simp)), ih (by simp) (fun x hx => hsep x (by simp [hx]))]

theorem noLeadingInteger_takeWhile (s : Str) (h : NoLeadingInteger s) :
    NoLeadingInteger (s.takeWhile (fun c => c != '.')) := by
  cases s with
  | nil => simp [NoLeadingInteger, List.takeWhile]
  | cons c t =>
    simp only [NoLeadingInteger] at h
    by_cases hdot : c = '.'
    · subst hdot
      simp [List.takeWhile, NoLeadingInteger]
    · have hb : (c != '.') = true := by simpa using hdot
      by_cases hsign : c = '+' ∨ c = '-'
      · rw [if_pos hsign] at h
        simp only [List.takeWhile, hb, NoLeadingInteger, if_pos hsign]
        intro d hd
        cases t with
        | nil => simp [List.takeWhile] at hd
        | cons a b =>
          have ha : isDigit a = false := h a (by simp)
          by_cases hadot : a = '.'
          · subst hadot
            simp [List.takeWhile] at hd
          · have hab : (a != '.') = true := by simpa using hadot
            simp only [List.takeWhile, hab, List.head?_cons, Option.mem_def,
              Option.some.injEq] at hd
            rw [← hd]
            exact ha
      · rw [if_neg hsign] at h
        simp only [List.takeWhile, hb, NoLeadingInteger, if_neg hsign]
        exact h

theorem takeWhile_number (ds tail : Str) (h : IsNumber ds) :
    (ds ++ '.' :: tail).takeWhile (fun c => c != '.') = ds := by
  have hd : ∀ x ∈ ds, (x != '.') = true := by
    intro x hx
    have := h.2 x hx
    simp only [isDigit, Bool.and_eq_true, decide_eq_true_eq] at this
    simp only [bne_iff_ne, ne_eq]
    intro e
    subst e
    exact absurd this.1 (by decide)
  rw [List.takeWhile_append_of_pos hd]
  simp [List.takeWhile]

/-- C5 (as amended): when the load-average text has at least four fields separated by
blanks, one pass of the load sampler ends normally, `LoadAvg` becomes the first
four fields and `Processes` the count of process directories; `Uptime` becomes the
decimal number that stands before the first `.` of the uptime text when that number is
at most the largest `int`, and becomes `0`, whatever it was, when the uptime text has
no leading integer (the empty text of an unreadable source included). -/
theorem collectCPUInfo_cycle (items : List (Str × Bool)) (uptimeRaw : Str) (fields : List Str)
    (st : stats) (hlen : 4 ≤ fields.length) (hfields : ∀ f ∈ fields, ' ' ∉ f) :
    ∃ up : Int,
      collectCPUInfo items uptimeRaw (joinWith ' ' fields) st
        = Outcome.next { st with
            Uptime := up, LoadAvg := fields.take 4, Processes := countProcesses items } ∧
      (∀ ds tail, uptimeRaw = ds ++ '.' :: tail → IsNumber ds →
        (decimalValue ds : Int) ≤ maxInt → up = decimalValue ds) ∧
      (NoLeadingInteger uptimeRaw → up = 0) := by
  refine ⟨(Atoi (uptimeRaw.takeWhile (fun c => c != '.'))).1, ?_, ?_, ?_⟩
  · have hne : fields ≠ [] := by
      intro e; subst e; simp at hlen
    obtain ⟨a, b, c, d, rest, rfl⟩ : ∃ a b c d rest, fields = a :: b :: c :: d :: rest := by
      match fields, hlen with
      | a :: b :: c :: d :: rest, _ => exact ⟨a, b, c, d, rest, rfl⟩
    simp only [collectCPUInfo, Split_head, Split_joinWith ' ' _ hne hfields]
    simp
  · intro ds tail hraw hnum hr
    subst hraw
    rw [takeWhile_number ds tail hnum, Atoi_digits ds hnum.1 hnum.2 hr]
  · intro h
    rw [Atoi_noLeadingInteger _ (noLeadingInteger_takeWhile _ h)]

/-- C5, witness: an uptime text and a load-average text of five fields as Linux prints
them. -/
theorem collectCPUInfo_cycle_witness :
    (4 ≤ ["0.10".toList, "0.20".toList, "0.30".toList, "1/100".toList, "555\n".toList].length) ∧
    (∀ f ∈ ["0.10".toList, "0.20".toList, "0.30".toList, "1/100".toList, "555\n".toList],
      ' ' ∉ f) ∧
    ∃ up : Int,
      collectCPUInfo [("1".toList, true), ("self".toList, true), ("22".toList, false)]
          "12345.67 54321.00\n".toList
          (joinWith ' ' ["0.10".toList, "0.20".toList, "0.30".toList, "1/100".toList, "555\n".toList])
          stats.zero
        = Outcome.next { stats.zero with
            Uptime := up, LoadAvg := ["0.10".toList, "0.20".toList, "0.30".toList, "1/100".toList],
            Processes := 1 } ∧ up = 12345 :=
  ⟨by decide, by decide, by
    obtain ⟨up, h1, h2, _⟩ := collectCPUInfo_cycle
      [("1".toList, true), ("self".toList, true), ("22".toList, false)]
      "12345.67 54321.00\n".toList
      ["0.10".toList, "0.20".toList, "0.30".toList, "1/100".toList, "555\n".toList]
      stats.zero (by decide) (by decide)
    exact ⟨up, h1, h2 "12345".toList "67 54321.00\n".toList (by decide)
      (by simp only [IsNumber]; decide) (by decide)⟩⟩

/-- C5 (as stated) fails in two ways: an unreadable (empty) uptime source resets
`Uptime` from 100 to 0, and a load-average text of fewer than four fields stops the
pass with an index out of range. -/
theorem collectCPUInfo_cycle_counterexample :
    collectCPUInfo [] [] "0.10 0.20 0.30 1/100 555\n".toList
        { stats.zero with Uptime := 100 }
      = Outcome.next { stats.zero with
          Uptime := 0, LoadAvg := ["0.10".toList, "0.20".toList, "0.30".toList, "1/100".toList] } ∧
    collectCPUInfo [] "12345.67 54321.00\n".toList []
        { stats.zero with Uptime := 100, LoadAvg := ["0.10".toList] }
      = Outcome.panic := by
  refine ⟨by decide, by decide⟩

/-! ## Passes on which the code departs from its contract -/

set_option maxRecDepth 100000

/-- C6: the code ends the network sampler for good on a line it cannot match.  The
first read is a line as the kernel prints it for an interface that has received 1000
bytes, the counter padded to seven columns, so that no digit follows `: `; the pass
is the `return` of `collectNetInfo`, whatever the second read and the record.  The
same happens when only the second read has such a line. -/
theorem collectNetInfo_mismatch_exits (st : stats) (netRaw2 : Str) :
    collectNetInfo "eth0".toList paddedRead netRaw2 st = Outcome.exit st ∧
    collectNetInfo "eth0".toList
        "  eth0: 1000 0 0 0 0 0 0 0 2000 0 0 0 0 0 0 0\n".toList paddedRead st
      = Outcome.exit st := by
  have h : scanLines "eth0".toList (Split paddedRead '\n') = Scan.mismatch := by decide
  have h1 : scanLines "eth0".toList
      (Split "  eth0: 1000 0 0 0 0 0 0 0 2000 0 0 0 0 0 0 0\n".toList '\n')
      = Scan.found 1000 2000 := by decide
  constructor
  · simp only [collectNetInfo, h]
  · simp only [collectNetInfo, h, h1]

/-- C7: the code stores the raw counters of the second read as the rate.  The
interface is missing from the first read (here an empty read) and present in the
second with counters 1500 and 2700: the rates, 42 before the pass, become 1500 and
2700. -/
theorem collectNetInfo_absent_first_read :
    collectNetInfo "eth0".toList []
        "  eth0: 1500 0 0 0 0 0 0 0 2700 0 0 0 0 0 0 0\n".toList
        { stats.zero with NetDown := 42, NetUp := 42 }
      = Outcome.next { stats.zero with NetDown := 1500, NetUp := 2700 } := by
  decide

/-- C8: the code stops on a row that the pattern rejects.  `df` has put a long device
name on a line of its own; the groups of that line are indexed although there was no
match, an index out of range, whatever the record. -/
theorem collectDiskInfo_mismatch_panics (st : stats) :
    collectDiskInfo (some wrappedDfOutput) st = Outcome.panic := by
  have h : diskRows ((Split wrappedDfOutput '\n').drop 1).dropLast [] = none := by decide
  simp only [collectDiskInfo, h]

/-- C10: the code samples the line of another interface.  With `eth0` configured and a
line of `veth0` standing first, both reads take the counters of `veth0`: the stored
rates are 7 and 9, those of `veth0`, not the 500 and 700 of `eth0`. -/
theorem collectNetInfo_substring_line :
    collectNetInfo "eth0".toList
        ("  veth0: 10 0 0 0 0 0 0 0 20 0 0 0 0 0 0 0\n" ++
         "  eth0: 1000 0 0 0 0 0 0 0 2000 0 0 0 0 0 0 0\n").toList
        ("  veth0: 17 0 0 0 0 0 0 0 29 0 0 0 0 0 0 0\n" ++
         "  eth0: 1500 0 0 0 0 0 0 0 2700 0 0 0 0 0 0 0\n").toList
        stats.zero
      = Outcome.next { stats.zero with NetDown := 7, NetUp := 9 } := by
  decide

end Varanus
